import Mathlib

/-!
# libassuan: command registry, dispatcher, protocol engine and datagram reader

A shallow embedding of `src/assuan-handler.c` and of `domain_reader` in
`src/assuan-domain-connect.c`.

Conventions of the embedding.

* A C string is the `List Char` of its characters before the terminating NUL;
  a `char *` that may be `NULL` is an `Option (List Char)`.
* `int` values are `Int`.  The width of a machine integer decides a result in
  two places, both modelled with explicit wrap-around: the `strtoul`-to-`int`
  assignment of `parse_cmd_input_output`, and the doubling of the buffer size
  in `domain_reader`.
* The calls the code makes into its environment are parameters: the results
  of `_assuan_read_line` and `_assuan_write_line` are scripted, an allocation
  of the registry succeeds or fails as a flag says, and the socket of the
  datagram reader is the queue of the datagrams waiting in it.
* A handler function pointer is a value of `Handler`; the handlers of the
  application are numbered and their behaviour is the parameter `app`.
* The constants and the `set_error` macro of `assuan-defs.h` / `assuan.h`
  (not part of the sources at hand) are parameters (`Defs`).
-/

set_option maxRecDepth 100000

namespace Assuan

/-- The numeric constants of `assuan.h` used by the handler code.  The header
is not among the sources, so each constant is a parameter of the development. -/
structure Defs where
  ASSUAN_CMD_NOP : Int
  ASSUAN_CMD_CANCEL : Int
  ASSUAN_CMD_BYE : Int
  ASSUAN_CMD_AUTH : Int
  ASSUAN_CMD_RESET : Int
  ASSUAN_CMD_END : Int
  ASSUAN_CMD_INPUT : Int
  ASSUAN_CMD_OUTPUT : Int
  ASSUAN_CMD_USER : Int
  ASSUAN_Out_Of_Core : Int
  ASSUAN_Invalid_Value : Int
  ASSUAN_Not_Implemented : Int
  ASSUAN_Server_Fault : Int
  ASSUAN_Invalid_Command : Int
  ASSUAN_Unknown_Command : Int
  ASSUAN_Syntax_Error : Int
  ASSUAN_Parameter_Conflict : Int
deriving DecidableEq

/-- A handler function pointer: one of the static handlers of
`assuan-handler.c`, or the `k`-th handler of the application. -/
inductive Handler where
  | dummy_handler
  | std_handler_nop
  | std_handler_cancel
  | std_handler_bye
  | std_handler_auth
  | std_handler_reset
  | std_handler_end
  | std_handler_input
  | std_handler_output
  | app (k : Nat)
deriving DecidableEq

/-- One initialised element of `ctx->cmdtbl` (`struct cmdtbl_s`). -/
structure Cmd where
  name : List Char
  cmd_id : Int
  handler : Handler
deriving DecidableEq

/-- The state of one element of the memory block behind `ctx->cmdtbl`:
zero-filled by `calloc` (its `name` is `NULL`), written by a registration, or
never written since `realloc` handed it out. -/
inductive Cell where
  | zero
  | entry (c : Cmd)
  | junk
deriving DecidableEq

/-- The fields of `struct assuan_context_s` read or written by the handler
code.  `cmdtbl = none` is the `NULL` table of a context that has no command
yet; otherwise the list is the allocated block, element by element. -/
structure Ctx where
  err_no : Int
  err_str : Option (List Char)
  inbound_fd : Int
  outbound_fd : Int
  inbound_line : List Char
  inbound_linelen : Int
  input_fd : Int
  output_fd : Int
  cmdtbl : Option (List Cell)
  cmdtbl_size : Nat
  cmdtbl_used : Nat
deriving DecidableEq

/-- The behaviour of the application handlers: handler number `k`, called on a
context and an argument line, gives a result code and the context it leaves. -/
abbrev AppHandlers := Nat → Ctx → List Char → Int × Ctx

/-- Modelled from the spec: `set_error` is a macro of `assuan-defs.h`, which is
not among the sources.  It records `code` and the detail text as the sticky
diagnostic of the context and evaluates to `code`. -/
def set_error (ctx : Ctx) (code : Int) (text : Option (List Char)) : Int × Ctx :=
  (code, { ctx with err_no := code, err_str := text })

/-- The `digitp` macro. -/
def digitp (c : Char) : Bool := decide ('0' ≤ c) && decide (c ≤ '9')

/-- The largest `unsigned long` (LP64). -/
def ULONG_MAX : Nat := 2 ^ 64 - 1

/-- The value `strtoul (s, &endp, 10)` returns when `s` starts with a digit:
the number written by the leading digits, or `ULONG_MAX` when that number does
not fit an `unsigned long`. -/
def strtoul_value (s : List Char) : Nat :=
  min ((s.takeWhile digitp).foldl (fun acc c => 10 * acc + (c.toNat - 48)) 0) ULONG_MAX

/-- The rest of the string `strtoul` leaves in `endp`. -/
def strtoul_endp (s : List Char) : List Char := s.dropWhile digitp

/-- Conversion of an `unsigned long` to `int`: the value modulo `2 ^ 32`, read
as a two's complement number. -/
def to_int (n : Nat) : Int :=
  if n % 2 ^ 32 < 2 ^ 31 then ((n % 2 ^ 32 : Nat) : Int) else ((n % 2 ^ 32 : Nat) : Int) - 2 ^ 32

/-- The function `parse_cmd_input_output`: the result code, the context (with
the diagnostic of a failure recorded) and the value stored through `rfd`, if
one was stored. -/
def parse_cmd_input_output (K : Defs) (ctx : Ctx) (line : List Char) :
    Int × Ctx × Option Int :=
  if line.take 3 ≠ "FD=".toList then
    let r := set_error ctx K.ASSUAN_Syntax_Error (some "FD=<n> expected".toList)
    (r.1, r.2, none)
  else
    let line := line.drop 3
    if !(match line with | [] => false | c :: _ => digitp c) then
      let r := set_error ctx K.ASSUAN_Syntax_Error (some "number required".toList)
      (r.1, r.2, none)
    else
      let rfd := to_int (strtoul_value line)
      if strtoul_endp line ≠ [] then
        let r := set_error ctx K.ASSUAN_Syntax_Error (some "garbage found".toList)
        (r.1, r.2, some rfd)
      else if rfd = ctx.inbound_fd then
        let r := set_error ctx K.ASSUAN_Parameter_Conflict (some "fd same as inbound fd".toList)
        (r.1, r.2, some rfd)
      else if rfd = ctx.outbound_fd then
        let r := set_error ctx K.ASSUAN_Parameter_Conflict (some "fd same as outbound fd".toList)
        (r.1, r.2, some rfd)
      else (0, ctx, some rfd)

/-- The handler of `INPUT FD=<n>`. -/
def std_handler_input (K : Defs) (ctx : Ctx) (line : List Char) : Int × Ctx :=
  match parse_cmd_input_output K ctx line with
  | (rc, ctx1, fd) =>
    if rc ≠ 0 then (rc, ctx1)
    else (0, { ctx1 with input_fd := fd.getD 0 })

/-- The handler of `OUTPUT FD=<n>`. -/
def std_handler_output (K : Defs) (ctx : Ctx) (line : List Char) : Int × Ctx :=
  match parse_cmd_input_output K ctx line with
  | (rc, ctx1, fd) =>
    if rc ≠ 0 then (rc, ctx1)
    else (0, { ctx1 with output_fd := fd.getD 0 })

/-- A call through a handler function pointer: the body of the static handler
it names, or the application handler. -/
def call_handler (K : Defs) (app : AppHandlers) (h : Handler) (ctx : Ctx)
    (line : List Char) : Int × Ctx :=
  match h with
  | .dummy_handler => set_error ctx K.ASSUAN_Server_Fault (some "no handler registered".toList)
  | .std_handler_nop => (0, ctx)
  | .std_handler_cancel => set_error ctx K.ASSUAN_Not_Implemented none
  | .std_handler_bye => (-1, ctx)
  | .std_handler_auth => set_error ctx K.ASSUAN_Not_Implemented none
  | .std_handler_reset => set_error ctx K.ASSUAN_Not_Implemented none
  | .std_handler_end => set_error ctx K.ASSUAN_Not_Implemented none
  | .std_handler_input => std_handler_input K ctx line
  | .std_handler_output => std_handler_output K ctx line
  | .app k => app k ctx line

/-- One row of `std_cmd_table`. -/
structure StdCmd where
  name : List Char
  cmd_id : Int
  handler : Handler
  always : Bool
deriving DecidableEq

/-- The rows of `std_cmd_table` before its `NULL` terminator. -/
def std_cmd_table (K : Defs) : List StdCmd :=
  [ ⟨"NOP".toList, K.ASSUAN_CMD_NOP, .std_handler_nop, true⟩,
    ⟨"CANCEL".toList, K.ASSUAN_CMD_CANCEL, .std_handler_cancel, true⟩,
    ⟨"BYE".toList, K.ASSUAN_CMD_BYE, .std_handler_bye, true⟩,
    ⟨"AUTH".toList, K.ASSUAN_CMD_AUTH, .std_handler_auth, true⟩,
    ⟨"RESET".toList, K.ASSUAN_CMD_RESET, .std_handler_reset, true⟩,
    ⟨"END".toList, K.ASSUAN_CMD_END, .std_handler_end, true⟩,
    ⟨"INPUT".toList, K.ASSUAN_CMD_INPUT, .std_handler_input, false⟩,
    ⟨"OUTPUT".toList, K.ASSUAN_CMD_OUTPUT, .std_handler_output, false⟩ ]

/-- The tail of `assuan_register_command` from the store into
`ctx->cmdtbl[ctx->cmdtbl_used]` on.  (In every state with
`cmdtbl_used < length of the block` the store is inside the block.) -/
def store_command (ctx : Ctx) (t : List Cell) (c : Cmd) : Int × Ctx :=
  (0, { ctx with cmdtbl := some (t.set ctx.cmdtbl_used (.entry c)),
                 cmdtbl_used := ctx.cmdtbl_used + 1 })

/-- The block `xtryrealloc` returns for `n` elements: the elements of the old
block that fit, followed by elements that were never written. -/
def realloc_block (t : List Cell) (n : Nat) : List Cell :=
  t.take n ++ List.replicate (n - t.length) Cell.junk

/-- The part of `assuan_register_command` after the name and the handler are
settled: make room in the table, then store.  `alloc_ok` tells whether the
allocation this call makes (if it makes one) succeeds. -/
def append_command (K : Defs) (ctx : Ctx) (c : Cmd) (alloc_ok : Bool) : Int × Ctx :=
  match ctx.cmdtbl with
  | none =>
    let ctx1 := { ctx with cmdtbl_size := 10 }
    if alloc_ok then
      store_command { ctx1 with cmdtbl_used := 0 } (List.replicate 10 Cell.zero) c
    else (K.ASSUAN_Out_Of_Core, ctx1)
  | some t =>
    if ctx.cmdtbl_used ≥ ctx.cmdtbl_size then
      if alloc_ok then
        store_command { ctx with cmdtbl_size := ctx.cmdtbl_size + 10 }
          (realloc_block t (ctx.cmdtbl_size + 10)) c
      else (K.ASSUAN_Out_Of_Core, ctx)
    else store_command ctx t c

/-- The function `assuan_register_command`.  A `NULL` name or handler is
`none`. -/
def assuan_register_command (K : Defs) (ctx : Ctx) (cmd_id : Int)
    (cmd_name : Option (List Char)) (handler : Option Handler) (alloc_ok : Bool) :
    Int × Ctx :=
  let cmd_name : Option (List Char) :=
    match cmd_name with
    | some [] => none
    | other => other
  if cmd_id < K.ASSUAN_CMD_USER then
    if cmd_name.isSome then (K.ASSUAN_Invalid_Value, ctx)
    else
      match (std_cmd_table K).find? (fun e => decide (e.cmd_id = cmd_id)) with
      | none => (K.ASSUAN_Invalid_Value, ctx)
      | some e =>
        append_command K ctx ⟨e.name, cmd_id, handler.getD e.handler⟩ alloc_ok
  else
    let handler := handler.getD Handler.dummy_handler
    match cmd_name with
    | none => (K.ASSUAN_Invalid_Value, ctx)
    | some n => append_command K ctx ⟨n, cmd_id, handler⟩ alloc_ok

/-- The loop of `_assuan_register_std_commands` over the rows of the table. -/
def register_std_loop (K : Defs) : List StdCmd → Ctx → List Bool → Int × Ctx
  | [], ctx, _ => (0, ctx)
  | e :: es, ctx, allocs =>
    if e.always then
      let r := assuan_register_command K ctx e.cmd_id none none (allocs.headD true)
      if r.1 ≠ 0 then r else register_std_loop K es r.2 allocs.tail
    else register_std_loop K es ctx allocs

/-- The function `_assuan_register_std_commands`; `allocs` tells, call by call,
whether the allocation of a registration succeeds (all succeed past its end). -/
def _assuan_register_std_commands (K : Defs) (ctx : Ctx) (allocs : List Bool) : Int × Ctx :=
  register_std_loop K (std_cmd_table K) ctx allocs

/-- The function `handle_data_line`. -/
def handle_data_line (K : Defs) (ctx : Ctx) (_line : List Char) : Int × Ctx :=
  set_error ctx K.ASSUAN_Not_Implemented none

/-- The characters that end the command word: space and tab. -/
def is_ws (c : Char) : Bool := c == ' ' || c == '\t'

/-- The ways the table scan of `dispatch_command` leaves defined behaviour. -/
inductive Fault where
  | null_table
  | out_of_bounds (i : Nat)
  | uninitialised (i : Nat)
deriving DecidableEq

/-- The result of the table scan of `dispatch_command`; `i` is the last index
the scan read. -/
inductive Lookup where
  | found (i : Nat) (c : Cmd)
  | unknown (i : Nat)
  | fault (f : Fault)
deriving DecidableEq

/-- The loop `for (i=0; (s=ctx->cmdtbl[i].name); i++) if (!strcmp (line, s)) break;`
over the memory block of the table, from index `i` on.  Running off the end of
the block is a read out of bounds. -/
def scan_cmdtbl (word : List Char) : List Cell → Nat → Lookup
  | [], i => .fault (.out_of_bounds i)
  | .zero :: _, i => .unknown i
  | .junk :: _, i => .fault (.uninitialised i)
  | .entry c :: rest, i =>
    if word = c.name then .found i c else scan_cmdtbl word rest (i + 1)

/-- What a completed `dispatch_command` leaves: its result code, the context,
and the handler calls it made with their argument strings. -/
structure Dispatched where
  rc : Int
  ctx : Ctx
  calls : List (Handler × List Char)
deriving DecidableEq

/-- The function `dispatch_command`.  Its only caller passes
`ctx->inbound.line`, so the NUL it writes after the command word shortens that
buffer. -/
def dispatch_command (K : Defs) (app : AppHandlers) (ctx : Ctx) (line : List Char) :
    Except Fault Dispatched :=
  if line.take 2 = ['D', ' '] then
    let r := handle_data_line K ctx (line.drop 2)
    .ok ⟨r.1, r.2, []⟩
  else
    let word := line.takeWhile (fun c => !is_ws c)
    let rest := line.dropWhile (fun c => !is_ws c)
    if word = [] then
      let r := set_error ctx K.ASSUAN_Invalid_Command (some "leading white-space".toList)
      .ok ⟨r.1, r.2, []⟩
    else
      let args := if rest = [] then [] else (rest.drop 1).dropWhile is_ws
      let ctx1 := if rest = [] then ctx else { ctx with inbound_line := word }
      match ctx1.cmdtbl with
      | none => .error .null_table
      | some t =>
        match scan_cmdtbl word t 0 with
        | .fault f => .error f
        | .unknown _ =>
          let r := set_error ctx1 K.ASSUAN_Unknown_Command none
          .ok ⟨r.1, r.2, []⟩
        | .found _ c =>
          let r := call_handler K app c.handler ctx1 args
          .ok ⟨r.1, r.2, [(c.handler, args)]⟩

/-- The `%d` conversion of `sprintf`. -/
def fmt_d (n : Int) : List Char := (toString n).toList

/-- The line `assuan_process` formats into `errline` for a dispatch result
`rc` other than 0 and -1.  `%.50s` and `%.100s` print at most that many
characters of their string. -/
def format_errline (K : Defs) (assuan_strerror : Int → List Char) (ctx : Ctx) (rc : Int) :
    List Char :=
  if rc < 100 then
    "ERR ".toList ++ fmt_d K.ASSUAN_Server_Fault ++ " server fault (".toList
      ++ (assuan_strerror rc).take 50 ++ ")".toList
  else
    let text : Option (List Char) := if ctx.err_no = rc then ctx.err_str else none
    "ERR ".toList ++ fmt_d rc ++ " ".toList ++ (assuan_strerror rc).take 50
      ++ (if text.isSome then " - ".toList else []) ++ (text.getD []).take 100

/-- The farewell line. -/
def farewell : List Char := "OK  Bye, bye - hope to meet you again".toList

/-- Modelled from the spec: `_assuan_read_line` is not among the sources.  One
call either fails with a non-zero code or returns 0 and leaves one line, and
its length, in `ctx->inbound`. -/
structure ReadRes where
  rc : Int
  line : List Char
deriving DecidableEq

/-- What `assuan_process` does that is visible from outside, in order: calls of
`_assuan_read_line` and `_assuan_write_line` with their results, and calls of
`dispatch_command` with the result code and the handler calls made. -/
inductive Event where
  | read (rc : Int) (line : List Char)
  | dispatch (line : List Char) (rc : Int) (calls : List (Handler × List Char))
  | write (line : List Char) (rc : Int)
deriving DecidableEq

/-- How a run of `assuan_process` ends: it returns, it waits in
`_assuan_read_line` for input that has not arrived, or the table scan of
`dispatch_command` left defined behaviour. -/
inductive Outcome where
  | returned (rc : Int)
  | blocked
  | crashed (f : Fault)
deriving DecidableEq

/-- A run of `assuan_process`. -/
structure Run where
  outcome : Outcome
  events : List Event
  ctx : Ctx
deriving DecidableEq

/-- Put events in front of the events of the rest of a run. -/
def Run.after (evs : List Event) (r : Run) : Run := { r with events := evs ++ r.events }

/-- The context after a successful `_assuan_read_line` that read `l`. -/
def with_line (ctx : Ctx) (l : List Char) : Ctx :=
  { ctx with inbound_line := l, inbound_linelen := l.length }

/-- The loop condition `*ctx->inbound.line == '#' || !ctx->inbound.linelen` of
the inner loop of `assuan_process`. -/
def skipped (ctx : Ctx) : Bool :=
  ctx.inbound_line.head? == some '#' || ctx.inbound_linelen == 0

/-- The reply line `assuan_process` passes to `_assuan_write_line` after a
dispatch whose result is not -1. -/
def reply_line (K : Defs) (assuan_strerror : Int → List Char) (d : Dispatched) : List Char :=
  if d.rc = 0 then "OK".toList else format_errline K assuan_strerror d.ctx d.rc

/-- The function `assuan_process`.  `reads` holds the results of the calls of
`_assuan_read_line` still to come, `wres k` is the result of the `k`-th call of
`_assuan_write_line`, and `nw` counts the write calls made so far. -/
def assuan_process (K : Defs) (app : AppHandlers) (assuan_strerror : Int → List Char)
    (wres : Nat → Int) : Ctx → List ReadRes → Nat → Run
  | ctx, [], _ => ⟨.blocked, [], ctx⟩
  | ctx, r :: rs, nw =>
    if r.rc ≠ 0 then ⟨.returned r.rc, [.read r.rc r.line], ctx⟩
    else if skipped (with_line ctx r.line) then
      (assuan_process K app assuan_strerror wres (with_line ctx r.line) rs nw).after
        [.read 0 r.line]
    else
      match dispatch_command K app (with_line ctx r.line) r.line with
      | .error f => ⟨.crashed f, [.read 0 r.line], with_line ctx r.line⟩
      | .ok d =>
        if d.rc = -1 then
          ⟨.returned 0,
            [.read 0 r.line, .dispatch r.line d.rc d.calls, .write farewell (wres nw)], d.ctx⟩
        else if wres nw = 0 then
          (assuan_process K app assuan_strerror wres d.ctx rs (nw + 1)).after
            [.read 0 r.line, .dispatch r.line d.rc d.calls,
              .write (reply_line K assuan_strerror d) (wres nw)]
        else
          ⟨.returned (if wres nw = -1 then 0 else wres nw),
            [.read 0 r.line, .dispatch r.line d.rc d.calls,
              .write (reply_line K assuan_strerror d) (wres nw)], d.ctx⟩

/-- An assignment of the constants of `assuan.h`, for evaluating the
definitions on concrete inputs: command ids from 0, user ids from 256, library
errors below 100 and status codes from 100. -/
def sample_defs : Defs :=
  { ASSUAN_CMD_NOP := 0, ASSUAN_CMD_CANCEL := 1, ASSUAN_CMD_BYE := 2, ASSUAN_CMD_AUTH := 3,
    ASSUAN_CMD_RESET := 4, ASSUAN_CMD_END := 5, ASSUAN_CMD_INPUT := 6, ASSUAN_CMD_OUTPUT := 7,
    ASSUAN_CMD_USER := 256, ASSUAN_Out_Of_Core := 2, ASSUAN_Invalid_Value := 3,
    ASSUAN_Not_Implemented := 100, ASSUAN_Server_Fault := 101, ASSUAN_Invalid_Command := 102,
    ASSUAN_Unknown_Command := 103, ASSUAN_Syntax_Error := 104,
    ASSUAN_Parameter_Conflict := 106 }

/-- A context as `_assuan_new_context` leaves it (spec: "allocate with empty
registry, descriptors unset"), with the pipe descriptors 0 and 1. -/
def fresh_ctx : Ctx :=
  { err_no := 0, err_str := none, inbound_fd := 0, outbound_fd := 1, inbound_line := [],
    inbound_linelen := 0, input_fd := -1, output_fd := -1, cmdtbl := none, cmdtbl_size := 0,
    cmdtbl_used := 0 }

/-- Application handlers for concrete runs: handler `k` returns `k` and leaves
the context alone. -/
def sample_app : AppHandlers := fun k ctx _ => (k, ctx)

/-- An `assuan_strerror` for concrete runs. -/
def sample_strerror (rc : Int) : List Char := "error ".toList ++ fmt_d rc

/-- The context of a server after `_assuan_register_std_commands`. -/
def std_ctx : Ctx := (_assuan_register_std_commands sample_defs fresh_ctx []).2

/-- The error reply as the specification words it, to compare with
`format_errline`: the whole `assuan_strerror` text, and the suffix `" - "`
with the sticky detail exactly when `err_no` equals the result code. -/
def claimed_errline (K : Defs) (assuan_strerror : Int → List Char) (ctx : Ctx) (rc : Int) :
    List Char :=
  if rc < 100 then
    "ERR ".toList ++ fmt_d K.ASSUAN_Server_Fault ++ " server fault (".toList
      ++ assuan_strerror rc ++ ")".toList
  else
    "ERR ".toList ++ fmt_d rc ++ " ".toList ++ assuan_strerror rc
      ++ (if ctx.err_no = rc then " - ".toList ++ ctx.err_str.getD [] else [])

/-- Application handlers for concrete runs that record a detail of 120
characters under the code they return. -/
def verbose_app : AppHandlers := fun k ctx _ => set_error ctx k (some (List.replicate 120 'y'))

/-- The standard context with one more command, `FOO`, served by the
application handler 200. -/
def foo_ctx : Ctx :=
  (assuan_register_command sample_defs std_ctx 256 (some "FOO".toList) (some (.app 200)) true).2

/-- Successive registrations of named commands, all allocations succeeding;
`none` when one of them does not return 0. -/
def register_all (K : Defs) : Ctx → List (Int × List Char × Handler) → Option Ctx
  | ctx, [] => some ctx
  | ctx, (cmd_id, n, h) :: more =>
    let r := assuan_register_command K ctx cmd_id (some n) (some h) true
    if r.1 = 0 then register_all K r.2 more else none

/-- Whether a table element has been written by a registration. -/
def Cell.is_entry : Cell → Bool
  | .entry _ => true
  | _ => false

/-- The elements of the table that are in use: the first `cmdtbl_used` ones. -/
def entries (ctx : Ctx) : List Cell :=
  match ctx.cmdtbl with
  | none => []
  | some t => t.take ctx.cmdtbl_used

/-- The representation invariant of the registry: a table that is not `NULL`
is a block of `cmdtbl_size` elements, of which the first `cmdtbl_used` have
been written by registrations. -/
def registry_ok (ctx : Ctx) : Bool :=
  match ctx.cmdtbl with
  | none => true
  | some t =>
    decide (t.length = ctx.cmdtbl_size) && decide (ctx.cmdtbl_used ≤ ctx.cmdtbl_size)
      && (t.take ctx.cmdtbl_used).all Cell.is_entry

/-- Whether a table element is an entry that bears the name `n`. -/
def Cell.named (n : List Char) : Cell → Bool
  | .entry e => decide (e.name = n)
  | _ => false

/-- A request line: a line that is not empty and does not start with `#`. -/
def is_request (l : List Char) : Bool := !(l.head? == some '#' || l.isEmpty)

/-- The lines dispatched in a run, in order. -/
def dispatched (evs : List Event) : List (List Char) :=
  evs.filterMap (fun e => match e with
    | .dispatch l _ _ => some l
    | _ => none)

/-- The lines written in a run, in order. -/
def written (evs : List Event) : List (List Char) :=
  evs.filterMap (fun e => match e with
    | .write l _ => some l
    | _ => none)

/-- The replies to a sequence of requests that ends with the request that
closes the session, as the specification words them: the i-th reply is
computed from the i-th request, in the context the requests before it left;
the last request, and only the last, has the result -1 and is answered by the
farewell.  `none` when the sequence is not of that kind (it is empty, a
request before the last has the result -1, the last has another result, or a
table scan leaves defined behaviour). -/
def serve (K : Defs) (app : AppHandlers) (assuan_strerror : Int → List Char) :
    Ctx → List (List Char) → Option (List (List Char))
  | _, [] => none
  | ctx, l :: ls =>
    match dispatch_command K app (with_line ctx l) l with
    | .error _ => none
    | .ok d =>
      if d.rc = -1 then (if ls = [] then some [farewell] else none)
      else (serve K app assuan_strerror d.ctx ls).map (fun rs => reply_line K assuan_strerror d :: rs)

/-- The claim "I/O errors are fatal and reported" about one run, as the
specification words it: a read, or a write of a reply other than the farewell,
that returns a non-zero code `e` is the last event and the run returns `e`;
and a run returns 0 only after a dispatch with the result -1. -/
def io_errors_fatal (run : Run) : Prop :=
  (∀ pre post rc l, run.events = pre ++ Event.read rc l :: post → rc ≠ 0 →
    post = [] ∧ run.outcome = .returned rc) ∧
  (∀ pre post l w, run.events = pre ++ Event.write l w :: post → l ≠ farewell → w ≠ 0 →
    post = [] ∧ run.outcome = .returned w) ∧
  (run.outcome = .returned 0 → ∃ l calls, Event.dispatch l (-1) calls ∈ run.events)

/-! ### The datagram reader of `assuan-domain-connect.c` -/

/-- A datagram waiting in the queue of the socket: the `sun_path` of its
sender and its bytes. -/
structure Datagram where
  sender : List Char
  payload : List Nat
deriving DecidableEq

/-- The fields of the context used by `domain_reader`.  `domainbuffer` holds
the bytes of the allocated block that have been written since its
allocation, from its start; the rest of the block is indeterminate. -/
structure DomainCtx where
  serveraddr : List Char
  domainbuffer : List Nat
  domainbufferoffset : Int
  domainbuffersize : Int
  domainbufferallocated : Int
deriving DecidableEq

/-- The buffer state `_assuan_domain_init` sets, for the peer address read
from the rendezvous channel. -/
def _assuan_domain_init (peer : List Char) : DomainCtx :=
  { serveraddr := peer, domainbuffer := [], domainbufferoffset := 0, domainbuffersize := 0,
    domainbufferallocated := 0 }

/-- How a call of `domain_reader` ends: it returns `n` (with the bytes it
copied into the buffer of the caller), it waits in `recvmsg` on an empty
queue, or one of its two assertions fails after the copy. -/
inductive ReadOutcome where
  | returned (n : Int) (data : List Nat)
  | blocked
  | assert_failed (data : List Nat)
deriving DecidableEq

/-- An `int` computation that leaves the range of `int` wraps around. -/
def wrap_int (x : Int) : Int := (x + 2 ^ 31) % 2 ^ 32 - 2 ^ 31

/-- The end of `domain_reader`, from "Return some data to the user" on, with
the current value of `len`.  The comparison `len > buflen` is made in
`size_t`, where a negative `len` is a huge number. -/
def copy_out (len : Int) (ctx : DomainCtx) (q : List Datagram) (buflen : Nat) :
    ReadOutcome × DomainCtx × List Datagram :=
  let len1 : Int := if len < 0 ∨ len > buflen then buflen else len
  let data := (ctx.domainbuffer.drop ctx.domainbufferoffset.toNat).take len1.toNat
  let ctx1 := { ctx with domainbuffersize := ctx.domainbuffersize - len1 }
  if ctx1.domainbuffersize < 0 then (.assert_failed data, ctx1, q)
  else
    let ctx2 := { ctx1 with domainbufferoffset := ctx1.domainbufferoffset + len1 }
    if ctx2.domainbufferoffset > ctx2.domainbufferallocated then (.assert_failed data, ctx2, q)
    else (.returned len1 data, ctx2, q)

/-- The body of `domain_reader` from the label `start` on, with the current
value of `len`.  The socket is its queue `q` of datagrams: `recvmsg` on an
empty queue waits; otherwise it succeeds, stores the first `iov_len` bytes of
the first datagram at the start of the buffer and reports a longer datagram as
truncated; without `MSG_PEEK` it removes the datagram.  Each `recvmsg` with
`MSG_PEEK` takes one unit of `fuel`; the turns of the `for (;;)` loop and the
jumps to `start` with `len == 0` both come back to that call.  A doubling of
the size that leaves the range of `int` gives a negative size, for which
`malloc` fails; every other `malloc` succeeds.  (`domainbufferallocated` is
the `iov_len` of the call; it is not negative in a state reached from
`_assuan_domain_init`.) -/
def domain_reader_start : Nat → Int → DomainCtx → List Datagram → Nat →
    Option (ReadOutcome × DomainCtx × List Datagram)
  | fuel, len, ctx, q, buflen =>
    if len ≠ 0 then some (copy_out len ctx q buflen)
    else
      match fuel with
      | 0 => none
      | fuel + 1 =>
        match q with
        | [] => some (.blocked, ctx, q)
        | d :: rest =>
          let n := min d.payload.length ctx.domainbufferallocated.toNat
          let ctx1 := { ctx with
            domainbuffer := d.payload.take n ++ ctx.domainbuffer.drop n }
          if d.sender ≠ ctx.serveraddr then
            domain_reader_start fuel n ctx1 q buflen
          else if d.payload.length > ctx.domainbufferallocated.toNat then
            let size := if ctx.domainbufferallocated = 0 then 4 * 1024
              else wrap_int (ctx.domainbufferallocated * 2)
            if size < 0 then some (.returned (-1) [], ctx1, q)
            else
              domain_reader_start fuel 0
                { ctx1 with domainbuffer := [], domainbufferallocated := size } q buflen
          else
            some (copy_out n
              { ctx1 with domainbuffersize := n, domainbufferoffset := 0 } rest buflen)

/-- The function `domain_reader`: a read of at most `buflen` bytes. -/
def domain_reader (fuel : Nat) (ctx : DomainCtx) (q : List Datagram) (buflen : Nat) :
    Option (ReadOutcome × DomainCtx × List Datagram) :=
  domain_reader_start fuel ctx.domainbuffersize ctx q buflen

/-- Successive reads with the sizes `wants`, until the queue is empty and no
byte is buffered: the chunks returned, in order.  `none` when a read does not
return bytes, or the sizes run out before that point. -/
def drain (fuel : Nat) : DomainCtx → List Datagram → List Nat → Option (List (List Nat))
  | ctx, q, wants =>
    if q = [] ∧ ctx.domainbuffersize = 0 then some []
    else
      match wants with
      | [] => none
      | w :: ws =>
        match domain_reader fuel ctx q w with
        | some (.returned n data, ctx1, q1) =>
          if n < 0 then none else (drain fuel ctx1 q1 ws).map (fun cs => data :: cs)
        | _ => none

/-- The buffer of the context holds exactly the bytes `b` still to be
returned: they are the `domainbuffersize` bytes of the block from
`domainbufferoffset` on, inside the allocated block. -/
def holds (ctx : DomainCtx) (b : List Nat) : Prop :=
  0 ≤ ctx.domainbufferoffset ∧
  ctx.domainbuffersize = b.length ∧
  (ctx.domainbuffer.drop ctx.domainbufferoffset.toNat).take b.length = b ∧
  ctx.domainbufferoffset + ctx.domainbuffersize ≤ ctx.domainbufferallocated

/-- The number of reads that surely empty a queue: one per byte, and one more
per datagram. -/
def reads_needed : List Datagram → Nat
  | [] => 0
  | d :: rest => d.payload.length + 1 + reads_needed rest

/-- What the code takes for granted about the command ids of `assuan.h`: the
ids of the rows of `std_cmd_table` differ from one another and are below
`ASSUAN_CMD_USER`. -/
def std_ids_ok (K : Defs) : Bool :=
  decide ((std_cmd_table K).Pairwise (fun a b => a.cmd_id ≠ b.cmd_id))
    && (std_cmd_table K).all (fun e => decide (e.cmd_id < K.ASSUAN_CMD_USER))

/-- The rows of `std_cmd_table` whose standard handler returns
`Not_Implemented`: `CANCEL`, `AUTH`, `RESET` and `END`. -/
def overridable (K : Defs) : List StdCmd :=
  [ ⟨"CANCEL".toList, K.ASSUAN_CMD_CANCEL, .std_handler_cancel, true⟩,
    ⟨"AUTH".toList, K.ASSUAN_CMD_AUTH, .std_handler_auth, true⟩,
    ⟨"RESET".toList, K.ASSUAN_CMD_RESET, .std_handler_reset, true⟩,
    ⟨"END".toList, K.ASSUAN_CMD_END, .std_handler_end, true⟩ ]

/-- The table entry a registration of a row of `std_cmd_table` without a
handler of the application writes. -/
def StdCmd.cell (e : StdCmd) : Cell := .entry ⟨e.name, e.cmd_id, e.handler⟩

/-- The number a string of decimal digits writes, most significant digit
first (`Nat.ofDigits` takes the least significant digit first). -/
def decimal_value (ds : List Char) : Nat :=
  Nat.ofDigits 10 ((ds.map (fun c => c.toNat - 48)).reverse)

/-- The `int` that `parse_cmd_input_output` stores for the number `n`: what
`strtoul` returns for it, converted to `int`. -/
def stored_fd (n : Nat) : Int := to_int (min n ULONG_MAX)

/-- Application handlers for runs about the sticky detail: handler 1 records
the detail "boom" under the code 200 and returns 200; any other handler `k`
returns `k` and does not call `set_error`. -/
def sticky_app : AppHandlers := fun k ctx _ =>
  if k = 1 then set_error ctx 200 (some "boom".toList) else (k, ctx)

/-- The standard context with two more commands: `FAIL`, served by the
application handler 1, and `AGAIN`, served by the application handler 200. -/
def sticky_ctx : Ctx :=
  (register_all sample_defs std_ctx
    [(256, "FAIL".toList, .app 1), (257, "AGAIN".toList, .app 200)]).getD std_ctx

/-- Successive calls of `domain_reader`, each made after more datagrams have
arrived: for each call the context before it, the size asked for, and what
the call gave; the calls stop after the first one that does not return. -/
def read_calls (fuel : Nat) : DomainCtx → List Datagram → List (List Datagram × Nat) →
    List (DomainCtx × Nat × Option (ReadOutcome × DomainCtx × List Datagram))
  | _, _, [] => []
  | ctx, q, (arrivals, buflen) :: more =>
    (ctx, buflen, domain_reader fuel ctx (q ++ arrivals) buflen) ::
      match domain_reader fuel ctx (q ++ arrivals) buflen with
      | some (.returned _ _, ctx1, q1) => read_calls fuel ctx1 q1 more
      | _ => []

/-- The buffer invariant as the specification words it. -/
def claimed_buffer_inv (ctx : DomainCtx) : Prop :=
  0 ≤ ctx.domainbufferoffset ∧ ctx.domainbufferoffset ≤ ctx.domainbuffersize ∧
    ctx.domainbuffersize ≤ ctx.domainbufferallocated

/-- The buffer invariant the reader keeps: offset and size are not negative
and the buffered bytes end inside the allocated block. -/
def buffer_inv (ctx : DomainCtx) : Prop :=
  0 ≤ ctx.domainbufferoffset ∧ 0 ≤ ctx.domainbuffersize ∧
    ctx.domainbufferoffset + ctx.domainbuffersize ≤ ctx.domainbufferallocated

/-- Whether a table element is an entry with the command id `cmd_id`. -/
def Cell.has_id (cmd_id : Int) : Cell → Bool
  | .entry e => decide (e.cmd_id = cmd_id)
  | _ => false

/-- The number of entries in use that have the command id `cmd_id`. -/
def id_count (cmd_id : Int) (ctx : Ctx) : Nat := (entries ctx).countP (Cell.has_id cmd_id)

/-! ## Theorems -/

/-- Events put in front of a run do not change how it ends. -/
theorem Run.after_outcome (evs : List Event) (r : Run) : (r.after evs).outcome = r.outcome := rfl

/-- The events of a run with events put in front. -/
theorem Run.after_events (evs : List Event) (r : Run) :
    (r.after evs).events = evs ++ r.events := rfl

/-- A split of `evs ++ rest` at an event that is not in `evs` is a split of
`rest`. -/
theorem split_after {evs rest pre post : List Event} {e : Event} (hne : e ∉ evs)
    (h : evs ++ rest = pre ++ e :: post) : ∃ pre1, rest = pre1 ++ e :: post := by
  rcases List.append_eq_append_iff.mp h with ⟨a, rfl, ha⟩ | ⟨c, rfl, hc⟩
  · exact ⟨a, ha⟩
  · cases c with
    | nil => exact ⟨[], by simpa using hc.symm⟩
    | cons x xs =>
      simp only [List.cons_append, List.cons.injEq] at hc
      exact absurd (by simp [hc.1]) hne

/-- The ways one turn of the loop of `assuan_process` can go, as equations
for the run: used to reason by cases on the first read result. -/
theorem process_cases (K : Defs) (app : AppHandlers) (se : Int → List Char)
    (wres : Nat → Int) (ctx : Ctx) (r : ReadRes) (rs : List ReadRes) (nw : Nat) :
    (r.rc ≠ 0 ∧ assuan_process K app se wres ctx (r :: rs) nw
        = ⟨.returned r.rc, [.read r.rc r.line], ctx⟩) ∨
    (r.rc = 0 ∧ skipped (with_line ctx r.line) = true ∧
      assuan_process K app se wres ctx (r :: rs) nw
        = (assuan_process K app se wres (with_line ctx r.line) rs nw).after [.read 0 r.line]) ∨
    (∃ f, r.rc = 0 ∧ skipped (with_line ctx r.line) = false ∧
      dispatch_command K app (with_line ctx r.line) r.line = .error f ∧
      assuan_process K app se wres ctx (r :: rs) nw
        = ⟨.crashed f, [.read 0 r.line], with_line ctx r.line⟩) ∨
    (∃ d, r.rc = 0 ∧ skipped (with_line ctx r.line) = false ∧
      dispatch_command K app (with_line ctx r.line) r.line = .ok d ∧ d.rc = -1 ∧
      assuan_process K app se wres ctx (r :: rs) nw
        = ⟨.returned 0, [.read 0 r.line, .dispatch r.line d.rc d.calls,
            .write farewell (wres nw)], d.ctx⟩) ∨
    (∃ d, r.rc = 0 ∧ skipped (with_line ctx r.line) = false ∧
      dispatch_command K app (with_line ctx r.line) r.line = .ok d ∧ d.rc ≠ -1 ∧
      wres nw = 0 ∧
      assuan_process K app se wres ctx (r :: rs) nw
        = (assuan_process K app se wres d.ctx rs (nw + 1)).after
            [.read 0 r.line, .dispatch r.line d.rc d.calls,
              .write (reply_line K se d) (wres nw)]) ∨
    (∃ d, r.rc = 0 ∧ skipped (with_line ctx r.line) = false ∧
      dispatch_command K app (with_line ctx r.line) r.line = .ok d ∧ d.rc ≠ -1 ∧
      wres nw ≠ 0 ∧
      assuan_process K app se wres ctx (r :: rs) nw
        = ⟨.returned (if wres nw = -1 then 0 else wres nw),
            [.read 0 r.line, .dispatch r.line d.rc d.calls,
              .write (reply_line K se d) (wres nw)], d.ctx⟩) := by
  by_cases hrc : r.rc ≠ 0
  · left; exact ⟨hrc, by simp [assuan_process, hrc]⟩
  · have hrc0 : r.rc = 0 := not_not.mp hrc
    right
    by_cases hs : skipped (with_line ctx r.line) = true
    · left; exact ⟨hrc0, hs, by simp [assuan_process, hrc0, hs]⟩
    · have hs0 : skipped (with_line ctx r.line) = false := by simpa using hs
      right
      cases hd : dispatch_command K app (with_line ctx r.line) r.line with
      | error f => left; exact ⟨f, hrc0, hs0, rfl, by simp [assuan_process, hrc0, hs0, hd]⟩
      | ok d =>
        right
        by_cases hb : d.rc = -1
        · left; exact ⟨d, hrc0, hs0, rfl, hb, by simp [assuan_process, hrc0, hs0, hd, hb]⟩
        · right
          by_cases hw : wres nw = 0
          · left
            exact ⟨d, hrc0, hs0, rfl, hb, hw, by simp [assuan_process, hrc0, hs0, hd, hb, hw]⟩
          · right
            exact ⟨d, hrc0, hs0, rfl, hb, hw, by simp [assuan_process, hrc0, hs0, hd, hb, hw]⟩

/-- CLAIM C1.  In every run of `assuan_process`, a `dispatch_command` that returns -1 is
followed by exactly one more event, the write of the line
`OK  Bye, bye - hope to meet you again`, whatever that write returns; no line
is read or dispatched after it, and the run returns 0.  The dispatch event of
the hypothesis is a call of `dispatch_command` on the line read that returned
-1 with those handler calls. -/
theorem process_bye_is_last (K : Defs) (app : AppHandlers) (se : Int → List Char)
    (wres : Nat → Int) (reads : List ReadRes) (ctx : Ctx) (nw : Nat)
    (pre post : List Event) (l : List Char) (calls : List (Handler × List Char))
    (h : (assuan_process K app se wres ctx reads nw).events
          = pre ++ Event.dispatch l (-1) calls :: post) :
    (∃ w, post = [Event.write "OK  Bye, bye - hope to meet you again".toList w]) ∧
      (assuan_process K app se wres ctx reads nw).outcome = Outcome.returned 0 ∧
      ∃ c d, dispatch_command K app (with_line c l) l = .ok d ∧ d.rc = -1 ∧ d.calls = calls := by
  induction reads generalizing ctx nw pre with
  | nil => simp [assuan_process] at h
  | cons r rs ih =>
    rcases process_cases K app se wres ctx r rs nw with
      ⟨_, e⟩ | ⟨_, _, e⟩ | ⟨f, _, _, _, e⟩ | ⟨d, _, _, hd, hb, e⟩ | ⟨d, _, _, _, hb, hw, e⟩ |
      ⟨d, _, _, _, hb, hw, e⟩
    all_goals rw [e] at h ⊢
    · rcases pre with _ | ⟨_, _ | ⟨_, _⟩⟩ <;> simp at h
    · rw [Run.after_events] at h
      obtain ⟨pre1, h1⟩ := split_after (by simp) h
      exact ih _ _ _ h1
    · rcases pre with _ | ⟨_, _ | ⟨_, _⟩⟩ <;> simp at h
    · rcases pre with _ | ⟨_, _ | ⟨_, _ | ⟨_, _⟩⟩⟩ <;> simp at h
      obtain ⟨_, ⟨hl, _, hc⟩, hp⟩ := h
      subst hl
      exact ⟨⟨_, hp.symm⟩, rfl, ctx, d, hd, hb, hc⟩
    · rw [Run.after_events] at h
      obtain ⟨pre1, h1⟩ := split_after (by simp; exact fun _ h2 _ => hb h2.symm) h
      exact ih _ _ _ h1
    · rcases pre with _ | ⟨_, _ | ⟨_, _ | ⟨_, _⟩⟩⟩ <;> simp at h
      exact absurd h.2.1.2.1 hb

/-- Witness for `process_bye_is_last`: a `BYE` whose farewell write fails with
code 5, followed by a line that is never read. -/
theorem process_bye_is_last_witness :
    (∃ w, [Event.write "OK  Bye, bye - hope to meet you again".toList 5]
        = [Event.write "OK  Bye, bye - hope to meet you again".toList w]) ∧
      (assuan_process sample_defs sample_app sample_strerror (fun k => if k = 1 then 5 else 0)
        std_ctx [⟨0, "NOP".toList⟩, ⟨0, "BYE".toList⟩, ⟨0, "NOP".toList⟩] 0).outcome
        = Outcome.returned 0 ∧
      ∃ c d, dispatch_command sample_defs sample_app (with_line c "BYE".toList) "BYE".toList
          = .ok d ∧ d.rc = -1 ∧ d.calls = [(Handler.std_handler_bye, [])] :=
  process_bye_is_last sample_defs sample_app sample_strerror (fun k => if k = 1 then 5 else 0)
    [⟨0, "NOP".toList⟩, ⟨0, "BYE".toList⟩, ⟨0, "NOP".toList⟩] std_ctx 0
    [Event.read 0 "NOP".toList,
      Event.dispatch "NOP".toList 0 [(Handler.std_handler_nop, [])],
      Event.write "OK".toList 0, Event.read 0 "BYE".toList]
    [Event.write "OK  Bye, bye - hope to meet you again".toList 5] "BYE".toList
    [(Handler.std_handler_bye, [])] (by decide)

/-- CLAIM C2 (as stated, refuted).  `CANCEL` returns `Not_Implemented` through
`set_error (ctx, Not_Implemented, NULL)`: `err_no` equals the result code, yet
the line written carries no `" - "`.  And a handler that records a detail of
120 characters, with an `assuan_strerror` text of 60 characters, gets a line
that holds 50 and 100 characters of them, not the whole strings. -/
theorem errline_claim_counterexample :
    (∃ d, dispatch_command sample_defs sample_app (with_line std_ctx "CANCEL".toList)
          "CANCEL".toList = .ok d ∧ d.rc = 100 ∧ d.ctx.err_no = d.rc ∧
        (assuan_process sample_defs sample_app sample_strerror (fun _ => 0) std_ctx
            [⟨0, "CANCEL".toList⟩] 0).events
          = [.read 0 "CANCEL".toList, .dispatch "CANCEL".toList 100 d.calls,
              .write "ERR 100 error 100".toList 0] ∧
        claimed_errline sample_defs sample_strerror d.ctx d.rc
          = "ERR 100 error 100 - ".toList) ∧
    (∃ d, dispatch_command sample_defs verbose_app (with_line foo_ctx "FOO".toList)
          "FOO".toList = .ok d ∧ d.rc = 200 ∧ d.ctx.err_no = d.rc ∧
        (assuan_process sample_defs verbose_app (fun _ => List.replicate 60 'x') (fun _ => 0)
            foo_ctx [⟨0, "FOO".toList⟩] 0).events
          = [.read 0 "FOO".toList, .dispatch "FOO".toList 200 d.calls,
              .write ("ERR 200 ".toList ++ List.replicate 50 'x' ++ " - ".toList
                ++ List.replicate 100 'y') 0] ∧
        claimed_errline sample_defs (fun _ => List.replicate 60 'x') d.ctx d.rc
          = "ERR 200 ".toList ++ List.replicate 60 'x' ++ " - ".toList
              ++ List.replicate 120 'y') := by
  refine ⟨⟨_, rfl, ?_⟩, ⟨_, rfl, ?_⟩⟩ <;> decide

/-- CLAIM C2 (amended).  After a dispatch whose result `rc` is neither 0 nor -1,
`assuan_process` writes, as its next action, the line: for `rc < 100`,
`ERR <ASSUAN_Server_Fault> server fault (<text>)`; otherwise `ERR <rc> <text>`,
followed by `" - "` and the first 100 characters of `err_str` when
`err_no = rc` and `err_str` is not `NULL`, and by nothing otherwise; `<text>`
is the first 50 characters of `assuan_strerror (rc)`. -/
theorem process_writes_errline (K : Defs) (app : AppHandlers) (se : Int → List Char)
    (wres : Nat → Int) (ctx : Ctx) (r : ReadRes) (rs : List ReadRes) (nw : Nat)
    (d : Dispatched) (hr : r.rc = 0) (hs : skipped (with_line ctx r.line) = false)
    (hd : dispatch_command K app (with_line ctx r.line) r.line = .ok d)
    (h0 : d.rc ≠ 0) (h1 : d.rc ≠ -1) :
    ∃ rest, (assuan_process K app se wres ctx (r :: rs) nw).events
      = .read 0 r.line :: .dispatch r.line d.rc d.calls ::
        .write
          (if d.rc < 100 then
            "ERR ".toList ++ fmt_d K.ASSUAN_Server_Fault ++ " server fault (".toList
              ++ (se d.rc).take 50 ++ ")".toList
          else
            "ERR ".toList ++ fmt_d d.rc ++ " ".toList ++ (se d.rc).take 50 ++
              (match d.ctx.err_str with
               | some detail => if d.ctx.err_no = d.rc then " - ".toList ++ detail.take 100 else []
               | none => []))
          (wres nw) :: rest := by
  have hline : reply_line K se d =
      (if d.rc < 100 then
        "ERR ".toList ++ fmt_d K.ASSUAN_Server_Fault ++ " server fault (".toList
          ++ (se d.rc).take 50 ++ ")".toList
      else
        "ERR ".toList ++ fmt_d d.rc ++ " ".toList ++ (se d.rc).take 50 ++
          (match d.ctx.err_str with
           | some detail => if d.ctx.err_no = d.rc then " - ".toList ++ detail.take 100 else []
           | none => [])) := by
    unfold reply_line format_errline
    rw [if_neg h0]
    by_cases hlt : d.rc < 100
    · simp only [if_pos hlt]
    · simp only [if_neg hlt]
      cases hstr : d.ctx.err_str with
      | none => simp
      | some detail =>
        by_cases he : d.ctx.err_no = d.rc
        · simp [he]
        · simp [he]
  rcases process_cases K app se wres ctx r rs nw with
    ⟨hne, _⟩ | ⟨_, hsk, _⟩ | ⟨f, _, _, hf, _⟩ | ⟨d1, _, _, hd1, hb, _⟩ |
    ⟨d1, _, _, hd1, _, _, e⟩ | ⟨d1, _, _, hd1, _, _, e⟩
  · exact absurd hr hne
  · rw [hs] at hsk; cases hsk
  · rw [hd] at hf; cases hf
  · rw [hd] at hd1; cases hd1; exact absurd hb h1
  · rw [hd] at hd1; cases hd1
    exact ⟨_, by rw [e, Run.after_events, hline]; rfl⟩
  · rw [hd] at hd1; cases hd1
    exact ⟨[], by rw [e, hline]⟩

/-- Witness for `process_writes_errline`: an unregistered command on the
standard context. -/
theorem process_writes_errline_witness :
    ∃ rest, (assuan_process sample_defs sample_app sample_strerror (fun _ => 0) std_ctx
        [⟨0, "FROBNICATE".toList⟩] 0).events
      = .read 0 "FROBNICATE".toList :: .dispatch "FROBNICATE".toList 103 [] ::
        .write
          (if (103 : Int) < 100 then
            "ERR ".toList ++ fmt_d sample_defs.ASSUAN_Server_Fault ++ " server fault (".toList
              ++ (sample_strerror 103).take 50 ++ ")".toList
          else
            "ERR ".toList ++ fmt_d 103 ++ " ".toList ++ (sample_strerror 103).take 50 ++
              (match (none : Option (List Char)) with
               | some detail => if (103 : Int) = 103 then " - ".toList ++ detail.take 100 else []
               | none => []))
          0 :: rest :=
  process_writes_errline sample_defs sample_app sample_strerror (fun _ => 0) std_ctx
    ⟨0, "FROBNICATE".toList⟩ [] 0
    ⟨103, (set_error (with_line std_ctx "FROBNICATE".toList) 103 none).2, []⟩
    rfl (by decide) rfl (by decide) (by decide)

/-- The table scan stops at the first entry that bears the word it looks for. -/
theorem scan_cmdtbl_found (word : List Char) (pre post : List Cell) (e : Cmd) (i : Nat)
    (hname : e.name = word)
    (hpre : ∀ c ∈ pre, ∃ e1, c = Cell.entry e1 ∧ e1.name ≠ word) :
    scan_cmdtbl word (pre ++ Cell.entry e :: post) i = .found (i + pre.length) e := by
  induction pre generalizing i with
  | nil => simp [scan_cmdtbl, hname]
  | cons c cs ih =>
    obtain ⟨e1, rfl, hne⟩ := hpre c (List.mem_cons_self _ _)
    have hne1 : ¬ word = e1.name := fun h => hne h.symm
    show scan_cmdtbl word (Cell.entry e1 :: (cs ++ Cell.entry e :: post)) i = _
    rw [scan_cmdtbl, if_neg hne1, ih (i + 1) (fun c hc => hpre c (List.mem_cons_of_mem _ hc))]
    simp only [List.length_cons]
    congr 1
    omega

/-- The command word of a line: what precedes its first space or tab. -/
theorem takeWhile_word (word tail : List Char) (hws : ∀ c ∈ word, is_ws c = false)
    (htail : ∀ c, tail.head? = some c → is_ws c = true) :
    (word ++ tail).takeWhile (fun c => !is_ws c) = word := by
  rw [List.takeWhile_append_of_pos (by simpa using hws)]
  cases tail with
  | nil => simp
  | cons c cs => simp [List.takeWhile_cons, htail c rfl]

/-- The rest of a line after its command word. -/
theorem dropWhile_word (word tail : List Char) (hws : ∀ c ∈ word, is_ws c = false)
    (htail : ∀ c, tail.head? = some c → is_ws c = true) :
    (word ++ tail).dropWhile (fun c => !is_ws c) = tail := by
  rw [List.dropWhile_append_of_pos (by simpa using hws)]
  cases tail with
  | nil => simp
  | cons c cs => simp [List.dropWhile_cons, htail c rfl]

/-- Dispatch of a line whose command word is the name of a table entry with
no entry of that name before it: the handler of that entry is called once, on
the rest of the line without its leading spaces and tabs, and its result is
the result of the dispatch. -/
theorem dispatch_found (K : Defs) (app : AppHandlers) (ctx : Ctx) (word tail : List Char)
    (pre post : List Cell) (e : Cmd)
    (hw : word ≠ []) (hws : ∀ c ∈ word, is_ws c = false)
    (htail : ∀ c, tail.head? = some c → is_ws c = true)
    (hD : (word ++ tail).take 2 ≠ ['D', ' '])
    (ht : ctx.cmdtbl = some (pre ++ Cell.entry e :: post)) (hname : e.name = word)
    (hpre : ∀ c ∈ pre, ∃ e1, c = Cell.entry e1 ∧ e1.name ≠ word) :
    dispatch_command K app ctx (word ++ tail) =
      .ok ⟨(call_handler K app e.handler
              (if tail = [] then ctx else { ctx with inbound_line := word })
              ((tail.drop 1).dropWhile is_ws)).1,
           (call_handler K app e.handler
              (if tail = [] then ctx else { ctx with inbound_line := word })
              ((tail.drop 1).dropWhile is_ws)).2,
           [(e.handler, ((tail.drop 1).dropWhile is_ws))]⟩ := by
  unfold dispatch_command
  rw [if_neg hD]
  simp only [takeWhile_word word tail hws htail, dropWhile_word word tail hws htail, if_neg hw]
  have hc : (if tail = [] then ctx else { ctx with inbound_line := word }).cmdtbl
      = some (pre ++ Cell.entry e :: post) := by
    split <;> simp [ht]
  have ha : (if tail = [] then [] else (tail.drop 1).dropWhile is_ws)
      = (tail.drop 1).dropWhile is_ws := by
    split
    · rename_i h0; simp [h0]
    · rfl
  simp only [hc, ha, scan_cmdtbl_found word pre post e 0 hname hpre]

/-- CLAIM C3 (as stated, refuted).  `FOO` is registered twice, with the application
handlers 1 and 2: the line `FOO x` calls handler 1, not handler 2.  A command
registered under the name `D` is not called by the line `D x`, which is taken
for a data line.  A command registered under a name with a space in it is not
called by the line that starts with that name. -/
theorem dispatch_purity_counterexample :
    (∃ c1 c2,
      assuan_register_command sample_defs std_ctx 256 (some "FOO".toList) (some (.app 1)) true
        = (0, c1) ∧
      assuan_register_command sample_defs c1 257 (some "FOO".toList) (some (.app 2)) true
        = (0, c2) ∧
      dispatch_command sample_defs sample_app c2 "FOO x".toList
        = .ok ⟨1, { c2 with inbound_line := "FOO".toList }, [(.app 1, "x".toList)]⟩) ∧
    (∃ c1,
      assuan_register_command sample_defs std_ctx 256 (some "D".toList) (some (.app 1)) true
        = (0, c1) ∧
      dispatch_command sample_defs sample_app c1 "D x".toList
        = .ok ⟨100, { c1 with err_no := 100, err_str := none }, []⟩) ∧
    (∃ c1,
      assuan_register_command sample_defs std_ctx 256 (some "A B".toList) (some (.app 1)) true
        = (0, c1) ∧
      dispatch_command sample_defs sample_app c1 "A B x".toList
        = .ok ⟨103, { c1 with inbound_line := "A".toList, err_no := 103, err_str := none },
              []⟩) :=
  ⟨⟨_, _, rfl, rfl, rfl⟩, ⟨_, rfl, rfl⟩, ⟨_, rfl, rfl⟩⟩

/-- CLAIM C3 (amended).  Let `C` be a non-empty command name without space or
tab, and let the first table entry named `C` hold the handler `h`.  For every
`args` and every non-empty run `sep` of spaces and tabs such that the line
`C sep args` does not begin with `D` and a space, `dispatch_command` on that
line calls `h` exactly once, with `args` stripped of its leading spaces and
tabs, and returns what `h` returns. -/
theorem dispatch_purity (K : Defs) (app : AppHandlers) (ctx : Ctx) (C sep args : List Char)
    (pre post : List Cell) (cmd_id : Int) (h : Handler)
    (hC : C ≠ []) (hCws : ∀ c ∈ C, is_ws c = false)
    (hsep : sep ≠ []) (hsepws : ∀ c ∈ sep, is_ws c = true)
    (hD : ¬ (C = ['D'] ∧ sep.head? = some ' '))
    (ht : ctx.cmdtbl = some (pre ++ Cell.entry ⟨C, cmd_id, h⟩ :: post))
    (hpre : ∀ c ∈ pre, ∃ e1, c = Cell.entry e1 ∧ e1.name ≠ C) :
    dispatch_command K app ctx (C ++ sep ++ args) =
      .ok ⟨(call_handler K app h { ctx with inbound_line := C } (args.dropWhile is_ws)).1,
           (call_handler K app h { ctx with inbound_line := C } (args.dropWhile is_ws)).2,
           [(h, args.dropWhile is_ws)]⟩ := by
  obtain ⟨s, sep1, rfl⟩ := List.exists_cons_of_ne_nil hsep
  have hs : is_ws s = true := hsepws s (List.mem_cons_self _ _)
  have hD1 : (C ++ (s :: sep1 ++ args)).take 2 ≠ ['D', ' '] := by
    intro hcon
    apply hD
    rcases C with _ | ⟨c, _ | ⟨c1, cs⟩⟩
    · exact absurd rfl hC
    · simp at hcon
      simp [hcon.1, hcon.2]
    · simp at hcon
      have := hCws c1 (by simp)
      rw [hcon.2] at this
      simp [is_ws] at this
  have hdrop : (sep1 ++ args).dropWhile is_ws = args.dropWhile is_ws :=
    List.dropWhile_append_of_pos (fun c hc => hsepws c (List.mem_cons_of_mem _ hc))
  have key := dispatch_found K app ctx C (s :: sep1 ++ args) pre post ⟨C, cmd_id, h⟩ hC hCws
    (by intro c hc; simp at hc; rw [← hc]; exact hs) hD1 ht rfl hpre
  rw [List.append_assoc, key]
  simp [hdrop]

/-- Witness for `dispatch_purity`: the standard context with `FOO` registered
for the application handler 200, and the line `FOO`, space, tab, ` a b`. -/
theorem dispatch_purity_witness :
    dispatch_command sample_defs sample_app foo_ctx ("FOO".toList ++ [' ', '\t'] ++ " a b".toList) =
      .ok ⟨(call_handler sample_defs sample_app (.app 200)
              { foo_ctx with inbound_line := "FOO".toList } (" a b".toList.dropWhile is_ws)).1,
           (call_handler sample_defs sample_app (.app 200)
              { foo_ctx with inbound_line := "FOO".toList } (" a b".toList.dropWhile is_ws)).2,
           [(.app 200, " a b".toList.dropWhile is_ws)]⟩ :=
  dispatch_purity sample_defs sample_app foo_ctx "FOO".toList [' ', '\t'] " a b".toList
    ((std_cmd_table sample_defs).take 6 |>.map
      (fun e => Cell.entry ⟨e.name, e.cmd_id, e.handler⟩))
    (List.replicate 3 Cell.zero) 256 (.app 200)
    (by decide) (by decide) (by decide) (by decide) (by decide) (by decide)
    (by
      intro c hc
      simp [std_cmd_table] at hc
      rcases hc with rfl | rfl | rfl | rfl | rfl | rfl <;> exact ⟨_, rfl, by decide⟩)

/-- CLAIM C4 (the code at the failing inputs).  On a context without any registration
the table is `NULL` and the scan dereferences it.  After ten registrations
(`cmdtbl_used = cmdtbl_size = 10`) the scan for an unregistered word reads the
element of index 10, past the end of the block.  After an eleventh
registration the block has 20 elements, of which those from index 11 on were
never written, and the scan reads the element of index 11.  With the six
standard commands only, the scan stops at the zero-filled element of index 6
and the result is `Unknown_Command`. -/
theorem unknown_command_scan_faults :
    dispatch_command sample_defs sample_app fresh_ctx "FROBNICATE".toList
      = .error .null_table ∧
    (∃ c, register_all sample_defs std_ctx
          [(256, "A".toList, .app 1), (257, "B".toList, .app 2), (258, "C".toList, .app 3),
            (259, "E".toList, .app 4)] = some c ∧
        c.cmdtbl_used = 10 ∧ c.cmdtbl_size = 10 ∧
        dispatch_command sample_defs sample_app c "FROBNICATE".toList
          = .error (.out_of_bounds 10)) ∧
    (∃ c, register_all sample_defs std_ctx
          [(256, "A".toList, .app 1), (257, "B".toList, .app 2), (258, "C".toList, .app 3),
            (259, "E".toList, .app 4), (260, "F".toList, .app 5)] = some c ∧
        c.cmdtbl_used = 11 ∧ c.cmdtbl_size = 20 ∧
        dispatch_command sample_defs sample_app c "FROBNICATE".toList
          = .error (.uninitialised 11)) ∧
    dispatch_command sample_defs sample_app std_ctx "FROBNICATE".toList
      = .ok ⟨103, { std_ctx with err_no := 103, err_str := none }, []⟩ :=
  ⟨rfl, ⟨_, rfl, rfl, rfl, rfl⟩, ⟨_, rfl, rfl, rfl, rfl⟩, rfl⟩

/-- The entries in use of a context whose table is not `NULL`. -/
theorem entries_of_table {ctx : Ctx} {t : List Cell} (h : ctx.cmdtbl = some t) :
    entries ctx = t.take ctx.cmdtbl_used := by
  unfold entries
  rw [h]

/-- The registry invariant of a context whose table is not `NULL`. -/
theorem registry_ok_of_table {ctx : Ctx} {t : List Cell} (h : ctx.cmdtbl = some t) :
    registry_ok ctx = (decide (t.length = ctx.cmdtbl_size)
      && decide (ctx.cmdtbl_used ≤ ctx.cmdtbl_size)
      && (t.take ctx.cmdtbl_used).all Cell.is_entry) := by
  unfold registry_ok
  rw [h]

/-- The table after a registration got past the checks of name and handler,
with the allocation succeeding: the entries in use, the new entry, and what is
left of the block. -/
theorem append_command_ok (K : Defs) (ctx : Ctx) (c : Cmd) (hok : registry_ok ctx = true) :
    ∃ post, (append_command K ctx c true).1 = 0 ∧
      (append_command K ctx c true).2.cmdtbl = some (entries ctx ++ Cell.entry c :: post) ∧
      (append_command K ctx c true).2.cmdtbl_used = (entries ctx).length + 1 ∧
      (append_command K ctx c true).2.cmdtbl_size
        = (entries ctx ++ Cell.entry c :: post).length := by
  unfold append_command
  cases ht : ctx.cmdtbl with
  | none =>
    refine ⟨List.replicate 9 Cell.zero, ?_⟩
    simp [store_command, entries, ht, List.replicate]
  | some t =>
    simp only [registry_ok, ht, Bool.and_eq_true, decide_eq_true_eq] at hok
    obtain ⟨⟨hlen, hle⟩, _⟩ := hok
    by_cases hfull : ctx.cmdtbl_used ≥ ctx.cmdtbl_size
    · have hu : ctx.cmdtbl_used = t.length := by omega
      refine ⟨List.replicate 9 Cell.junk, ?_⟩
      have hblock : realloc_block t (ctx.cmdtbl_size + 10) = t ++ List.replicate 10 Cell.junk := by
        unfold realloc_block
        rw [List.take_of_length_le (by omega)]
        congr 2
        omega
      simp only [ht]
      rw [if_pos hfull]
      simp only [if_true, store_command, entries, ht, hblock]
      rw [hu]
      refine ⟨trivial, ?_, ?_, ?_⟩
      · simp only [List.take_length]
        rw [List.set_append_right _ _ (le_refl _)]
        simp [List.replicate]
      · simp
      · simp
        omega
    · have hu : ctx.cmdtbl_used < t.length := by omega
      refine ⟨t.drop (ctx.cmdtbl_used + 1), ?_⟩
      simp only [ht]
      rw [if_neg hfull]
      simp only [store_command, entries, ht]
      refine ⟨trivial, ?_, ?_, ?_⟩
      · rw [List.set_eq_take_append_cons_drop, if_pos hu]
      · simp
        omega
      · simp
        omega

/-- The entries in use after such a registration. -/
theorem append_command_entries (K : Defs) (ctx : Ctx) (c : Cmd) (hok : registry_ok ctx = true) :
    (append_command K ctx c true).1 = 0 ∧
      entries (append_command K ctx c true).2 = entries ctx ++ [Cell.entry c] ∧
      registry_ok (append_command K ctx c true).2 = true := by
  obtain ⟨post, h1, h2, h3, h4⟩ := append_command_ok K ctx c hok
  have hall : (entries ctx).all Cell.is_entry = true := by
    unfold entries
    cases ht : ctx.cmdtbl with
    | none => simp
    | some t =>
      simp only [registry_ok, ht, Bool.and_eq_true, decide_eq_true_eq] at hok
      exact hok.2
  have htake : (entries ctx ++ Cell.entry c :: post).take ((entries ctx).length + 1)
      = entries ctx ++ [Cell.entry c] := by
    rw [List.take_append_eq_append_take]
    simp
  refine ⟨h1, ?_, ?_⟩
  · rw [entries_of_table h2, h3, htake]
  · rw [registry_ok_of_table h2, h3, h4, htake]
    simp only [Bool.and_eq_true, decide_eq_true_eq]
    refine ⟨⟨trivial, ?_⟩, ?_⟩
    · simp
    · rw [List.all_append, hall]
      simp [Cell.is_entry]

/-- Making room and storing returns 0 or `ASSUAN_Out_Of_Core`. -/
theorem append_command_rc (K : Defs) (ctx : Ctx) (c : Cmd) (alloc_ok : Bool) :
    (append_command K ctx c alloc_ok).1 = 0 ∨
      (append_command K ctx c alloc_ok).1 = K.ASSUAN_Out_Of_Core := by
  unfold append_command
  cases ctx.cmdtbl with
  | none => cases alloc_ok <;> simp [store_command]
  | some t =>
    simp only
    split
    · cases alloc_ok <;> simp [store_command]
    · simp [store_command]

/-- In a table all of whose entries in use were written by registrations, the
entries before a new one are entries named otherwise as soon as none of them
bears the new name. -/
theorem entries_named_otherwise (ctx : Ctx) (n : List Char) (hok : registry_ok ctx = true)
    (hfresh : ∀ c ∈ entries ctx, ∀ e1, c = Cell.entry e1 → e1.name ≠ n) :
    ∀ c ∈ entries ctx, ∃ e1, c = Cell.entry e1 ∧ e1.name ≠ n := by
  intro c hc
  have hall : (entries ctx).all Cell.is_entry = true := by
    cases ht : ctx.cmdtbl with
    | none => simp [entries, ht]
    | some t =>
      rw [registry_ok_of_table ht] at hok
      simp only [Bool.and_eq_true] at hok
      rw [entries_of_table ht]
      exact hok.2
  have hce := List.all_eq_true.mp hall c hc
  cases c with
  | entry e1 => exact ⟨e1, rfl, hfresh _ hc e1 rfl⟩
  | zero => simp [Cell.is_entry] at hce
  | junk => simp [Cell.is_entry] at hce

/-- CLAIM C9.  For a command id below `ASSUAN_CMD_USER`, on a context whose registry is
well formed: `assuan_register_command` returns `ASSUAN_Invalid_Value` exactly
when the name is a non-empty string or no row of `std_cmd_table` has the id,
and then the context is unchanged; otherwise, the allocation succeeding, it
returns 0 and appends one entry with the id, the name of the row of that id and
the handler supplied, or the handler of the row when none is supplied.  A
`NULL` name and an empty name give the same result. -/
theorem register_standard_id (K : Defs) (ctx : Ctx) (cmd_id : Int)
    (cmd_name : Option (List Char)) (handler : Option Handler) (alloc_ok : Bool)
    (hid : cmd_id < K.ASSUAN_CMD_USER)
    (hne0 : K.ASSUAN_Invalid_Value ≠ 0)
    (hneo : K.ASSUAN_Invalid_Value ≠ K.ASSUAN_Out_Of_Core)
    (hok : registry_ok ctx = true) :
    ((assuan_register_command K ctx cmd_id cmd_name handler alloc_ok).1
        = K.ASSUAN_Invalid_Value
      ↔ (cmd_name.getD [] ≠ [] ∨ ∀ e ∈ std_cmd_table K, e.cmd_id ≠ cmd_id)) ∧
    ((assuan_register_command K ctx cmd_id cmd_name handler alloc_ok).1
        = K.ASSUAN_Invalid_Value →
      (assuan_register_command K ctx cmd_id cmd_name handler alloc_ok).2 = ctx) ∧
    (cmd_name.getD [] = [] →
      ∀ e, (std_cmd_table K).find? (fun e => decide (e.cmd_id = cmd_id)) = some e →
        (assuan_register_command K ctx cmd_id cmd_name handler true).1 = 0 ∧
        entries (assuan_register_command K ctx cmd_id cmd_name handler true).2
          = entries ctx ++ [Cell.entry ⟨e.name, cmd_id, handler.getD e.handler⟩] ∧
        registry_ok (assuan_register_command K ctx cmd_id cmd_name handler true).2 = true) ∧
    assuan_register_command K ctx cmd_id (some []) handler alloc_ok
      = assuan_register_command K ctx cmd_id none handler alloc_ok := by
  have hnamed : ∀ c cs, assuan_register_command K ctx cmd_id (some (c :: cs)) handler alloc_ok
      = (K.ASSUAN_Invalid_Value, ctx) := by
    intro c cs
    simp [assuan_register_command, hid]
  have hplain : ∀ a, assuan_register_command K ctx cmd_id none handler a =
      match (std_cmd_table K).find? (fun e => decide (e.cmd_id = cmd_id)) with
      | none => (K.ASSUAN_Invalid_Value, ctx)
      | some e => append_command K ctx ⟨e.name, cmd_id, handler.getD e.handler⟩ a := by
    intro a
    simp [assuan_register_command, hid]
  have hempty : ∀ a, assuan_register_command K ctx cmd_id (some []) handler a
      = assuan_register_command K ctx cmd_id none handler a := by
    intro a
    simp [assuan_register_command, hid]
  have hnone : (∀ e ∈ std_cmd_table K, e.cmd_id ≠ cmd_id) ↔
      (std_cmd_table K).find? (fun e => decide (e.cmd_id = cmd_id)) = none := by
    rw [List.find?_eq_none]
    simp
  refine ⟨?_, ?_, ?_, hempty alloc_ok⟩
  · rcases cmd_name with _ | ⟨_ | ⟨c, cs⟩⟩
    · rw [hplain, hnone]
      cases hf : (std_cmd_table K).find? (fun e => decide (e.cmd_id = cmd_id)) with
      | none => simp
      | some e =>
        simp only [Option.getD_none, ne_eq, not_true_eq_false, false_or, reduceCtorEq,
          iff_false]
        rcases append_command_rc K ctx ⟨e.name, cmd_id, handler.getD e.handler⟩ alloc_ok
          with h | h
        · rw [h]; exact fun h' => hne0 h'.symm
        · rw [h]; exact fun h' => hneo h'.symm
    · rw [hempty, hplain, hnone]
      cases hf : (std_cmd_table K).find? (fun e => decide (e.cmd_id = cmd_id)) with
      | none => simp
      | some e =>
        simp only [Option.getD_some, ne_eq, not_true_eq_false, false_or, reduceCtorEq,
          iff_false]
        rcases append_command_rc K ctx ⟨e.name, cmd_id, handler.getD e.handler⟩ alloc_ok
          with h | h
        · rw [h]; exact fun h' => hne0 h'.symm
        · rw [h]; exact fun h' => hneo h'.symm
    · rw [hnamed]
      simp
  · rcases cmd_name with _ | ⟨_ | ⟨c, cs⟩⟩
    · rw [hplain]
      cases hf : (std_cmd_table K).find? (fun e => decide (e.cmd_id = cmd_id)) with
      | none => simp
      | some e =>
        intro h'
        rcases append_command_rc K ctx ⟨e.name, cmd_id, handler.getD e.handler⟩ alloc_ok
          with h | h
        · rw [h] at h'; exact absurd h'.symm hne0
        · rw [h] at h'; exact absurd h'.symm hneo
    · rw [hempty, hplain]
      cases hf : (std_cmd_table K).find? (fun e => decide (e.cmd_id = cmd_id)) with
      | none => simp
      | some e =>
        intro h'
        rcases append_command_rc K ctx ⟨e.name, cmd_id, handler.getD e.handler⟩ alloc_ok
          with h | h
        · rw [h] at h'; exact absurd h'.symm hne0
        · rw [h] at h'; exact absurd h'.symm hneo
    · rw [hnamed]
      simp
  · intro hnm e hf
    have hreg : assuan_register_command K ctx cmd_id cmd_name handler true
        = append_command K ctx ⟨e.name, cmd_id, handler.getD e.handler⟩ true := by
      rcases cmd_name with _ | ⟨_ | ⟨c, cs⟩⟩
      · rw [hplain, hf]
      · rw [hempty, hplain, hf]
      · simp at hnm
    rw [hreg]
    exact append_command_entries K ctx _ hok

/-- Witness for `register_standard_id`: the registration of the standard id of
`INPUT`, without name and handler, on the standard context. -/
theorem register_standard_id_witness :
    ((assuan_register_command sample_defs std_ctx 6 none none true).1
        = sample_defs.ASSUAN_Invalid_Value
      ↔ ((none : Option (List Char)).getD [] ≠ [] ∨
          ∀ e ∈ std_cmd_table sample_defs, e.cmd_id ≠ 6)) ∧
    (assuan_register_command sample_defs std_ctx 6 none none true).1 = 0 ∧
    entries (assuan_register_command sample_defs std_ctx 6 none none true).2
      = entries std_ctx ++ [Cell.entry ⟨"INPUT".toList, 6, .std_handler_input⟩] ∧
    registry_ok (assuan_register_command sample_defs std_ctx 6 none none true).2 = true ∧
    assuan_register_command sample_defs std_ctx 6 (some []) none true
      = assuan_register_command sample_defs std_ctx 6 none none true :=
  ⟨(register_standard_id sample_defs std_ctx 6 none none true (by decide) (by decide)
      (by decide) (by decide)).1,
    ((register_standard_id sample_defs std_ctx 6 none none true (by decide) (by decide)
      (by decide) (by decide)).2.2.1 rfl
      ⟨"INPUT".toList, 6, .std_handler_input, false⟩ (by decide)).1,
    ((register_standard_id sample_defs std_ctx 6 none none true (by decide) (by decide)
      (by decide) (by decide)).2.2.1 rfl
      ⟨"INPUT".toList, 6, .std_handler_input, false⟩ (by decide)).2.1,
    ((register_standard_id sample_defs std_ctx 6 none none true (by decide) (by decide)
      (by decide) (by decide)).2.2.1 rfl
      ⟨"INPUT".toList, 6, .std_handler_input, false⟩ (by decide)).2.2,
    (register_standard_id sample_defs std_ctx 6 none none true (by decide) (by decide)
      (by decide) (by decide)).2.2.2⟩

/-- CLAIM C10 (as stated, refuted).  A user command registered without a handler under
a name with a space in it is never reached by dispatching that name: the line
`A B` is looked up as `A` and answered with `Unknown_Command`.  A user command
registered without a handler under the name `NOP`, after the standard
commands, is shadowed by the standard entry: the line `NOP` returns 0. -/
theorem dummy_dispatch_counterexample :
    (∃ c1,
      assuan_register_command sample_defs std_ctx 256 (some "A B".toList) none true = (0, c1) ∧
      entries c1 = entries std_ctx ++ [Cell.entry ⟨"A B".toList, 256, .dummy_handler⟩] ∧
      dispatch_command sample_defs sample_app c1 "A B".toList
        = .ok ⟨sample_defs.ASSUAN_Unknown_Command,
              { c1 with inbound_line := "A".toList, err_no := 103, err_str := none }, []⟩) ∧
    (∃ c1,
      assuan_register_command sample_defs std_ctx 256 (some "NOP".toList) none true = (0, c1) ∧
      entries c1 = entries std_ctx ++ [Cell.entry ⟨"NOP".toList, 256, .dummy_handler⟩] ∧
      dispatch_command sample_defs sample_app c1 "NOP".toList
        = .ok ⟨0, c1, [(.std_handler_nop, [])]⟩) :=
  ⟨⟨_, rfl, rfl, rfl⟩, ⟨_, rfl, rfl, rfl⟩⟩

/-- CLAIM C10 (amended).  For a command id not below `ASSUAN_CMD_USER`:
with a `NULL` or empty name `assuan_register_command` returns
`ASSUAN_Invalid_Value` and leaves the context unchanged; with a non-empty name
and a `NULL` handler, on a well-formed registry and the allocation succeeding,
it returns 0 and appends an entry whose handler is `dummy_handler`;
`dummy_handler` records the detail "no handler registered" under
`ASSUAN_Server_Fault` and returns that code, for every context and line; and
when the name holds no space or tab and no earlier entry bears it, dispatching
a line whose command word is that name (and that does not begin with `D` and a
space) calls `dummy_handler` once and yields `ASSUAN_Server_Fault`. -/
theorem register_user_id (K : Defs) (ctx : Ctx) (cmd_id : Int) (handler : Option Handler)
    (alloc_ok : Bool) (hid : K.ASSUAN_CMD_USER ≤ cmd_id) :
    assuan_register_command K ctx cmd_id none handler alloc_ok
      = (K.ASSUAN_Invalid_Value, ctx) ∧
    assuan_register_command K ctx cmd_id (some []) handler alloc_ok
      = (K.ASSUAN_Invalid_Value, ctx) ∧
    (∀ (app : AppHandlers) (c : Ctx) (line : List Char),
      call_handler K app .dummy_handler c line
        = (K.ASSUAN_Server_Fault,
            { c with err_no := K.ASSUAN_Server_Fault,
                     err_str := some "no handler registered".toList })) ∧
    (∀ n : List Char, n ≠ [] → registry_ok ctx = true →
      (assuan_register_command K ctx cmd_id (some n) none true).1 = 0 ∧
      entries (assuan_register_command K ctx cmd_id (some n) none true).2
        = entries ctx ++ [Cell.entry ⟨n, cmd_id, .dummy_handler⟩] ∧
      (∀ (app : AppHandlers) (tail : List Char),
        (∀ c ∈ n, is_ws c = false) →
        (∀ c, tail.head? = some c → is_ws c = true) →
        (n ++ tail).take 2 ≠ ['D', ' '] →
        (entries ctx).all (fun c => !c.named n) = true →
        ∃ c1, dispatch_command K app
            (assuan_register_command K ctx cmd_id (some n) none true).2 (n ++ tail)
          = .ok ⟨K.ASSUAN_Server_Fault, c1, [(.dummy_handler, (tail.drop 1).dropWhile is_ws)]⟩ ∧
          c1.err_no = K.ASSUAN_Server_Fault ∧
          c1.err_str = some "no handler registered".toList)) := by
  have hnot : ¬ cmd_id < K.ASSUAN_CMD_USER := not_lt.mpr hid
  refine ⟨by simp [assuan_register_command, hnot], by simp [assuan_register_command, hnot],
    fun _ _ _ => rfl, ?_⟩
  intro n hn hok
  have hreg : assuan_register_command K ctx cmd_id (some n) none true
      = append_command K ctx ⟨n, cmd_id, .dummy_handler⟩ true := by
    rcases n with _ | ⟨c, cs⟩
    · exact absurd rfl hn
    · simp [assuan_register_command, hnot]
  rw [hreg]
  obtain ⟨h1, h2, _⟩ := append_command_entries K ctx ⟨n, cmd_id, .dummy_handler⟩ hok
  refine ⟨h1, h2, ?_⟩
  intro app tail hws htail hD hfresh
  obtain ⟨post, _, htbl, _, _⟩ := append_command_ok K ctx ⟨n, cmd_id, .dummy_handler⟩ hok
  have key := dispatch_found K app (append_command K ctx ⟨n, cmd_id, .dummy_handler⟩ true).2
    n tail (entries ctx) post ⟨n, cmd_id, .dummy_handler⟩ hn hws htail hD htbl rfl
    (entries_named_otherwise ctx n hok (by
      intro c hc e1 he
      have := List.all_eq_true.mp hfresh c hc
      rw [he] at this
      simpa [Cell.named] using this))
  rw [key]
  exact ⟨_, rfl, rfl, rfl⟩

/-- Witness for `register_user_id`: on the standard context, the user id 256
and the name `FOO`, dispatched by the line `FOO  x`. -/
theorem register_user_id_witness :
    sample_defs.ASSUAN_CMD_USER ≤ 256 ∧
    assuan_register_command sample_defs std_ctx 256 none none true
      = (sample_defs.ASSUAN_Invalid_Value, std_ctx) ∧
    assuan_register_command sample_defs std_ctx 256 (some []) none true
      = (sample_defs.ASSUAN_Invalid_Value, std_ctx) ∧
    (assuan_register_command sample_defs std_ctx 256 (some "FOO".toList) none true).1 = 0 ∧
    entries (assuan_register_command sample_defs std_ctx 256 (some "FOO".toList) none true).2
      = entries std_ctx ++ [Cell.entry ⟨"FOO".toList, 256, .dummy_handler⟩] ∧
    (∃ c1, dispatch_command sample_defs sample_app
        (assuan_register_command sample_defs std_ctx 256 (some "FOO".toList) none true).2
        ("FOO".toList ++ "  x".toList)
      = .ok ⟨sample_defs.ASSUAN_Server_Fault, c1,
          [(.dummy_handler, ("  x".toList.drop 1).dropWhile is_ws)]⟩ ∧
      c1.err_no = sample_defs.ASSUAN_Server_Fault ∧
      c1.err_str = some "no handler registered".toList) :=
  ⟨by decide,
    (register_user_id sample_defs std_ctx 256 none true (by decide)).1,
    (register_user_id sample_defs std_ctx 256 none true (by decide)).2.1,
    ((register_user_id sample_defs std_ctx 256 none true (by decide)).2.2.2
      "FOO".toList (by decide) (by decide)).1,
    ((register_user_id sample_defs std_ctx 256 none true (by decide)).2.2.2
      "FOO".toList (by decide) (by decide)).2.1,
    ((register_user_id sample_defs std_ctx 256 none true (by decide)).2.2.2
      "FOO".toList (by decide) (by decide)).2.2 sample_app "  x".toList
      (by decide) (by decide) (by decide) (by decide)⟩

/-- The loop condition of the inner loop after a read tells request lines
from the others. -/
theorem skipped_with_line (ctx : Ctx) (l : List Char) :
    skipped (with_line ctx l) = !is_request l := by
  cases l with
  | nil => simp [skipped, with_line, is_request]
  | cons c cs =>
    simp [skipped, with_line, is_request]
    intro h
    omega

/-- The reference replies do not depend on the line buffer of the context. -/
theorem serve_with_line (K : Defs) (app : AppHandlers) (se : Int → List Char) (ctx : Ctx)
    (a : List Char) (ls : List (List Char)) :
    serve K app se (with_line ctx a) ls = serve K app se ctx ls := by
  cases ls with
  | nil => rfl
  | cons l ls => rfl

/-- The engine, fed request lines mixed with empty lines and comment lines,
all reads and writes succeeding, against the reference replies. -/
theorem process_serves (K : Defs) (app : AppHandlers) (se : Int → List Char)
    (wres : Nat → Int) (hwrites : ∀ k, wres k = 0) (reads : List ReadRes) :
    ∀ (ctx : Ctx) (nw : Nat) (replies : List (List Char)),
      (∀ r ∈ reads, r.rc = 0) →
      serve K app se ctx ((reads.map ReadRes.line).filter is_request) = some replies →
      (assuan_process K app se wres ctx reads nw).outcome = .returned 0 ∧
      dispatched (assuan_process K app se wres ctx reads nw).events
        = (reads.map ReadRes.line).filter is_request ∧
      written (assuan_process K app se wres ctx reads nw).events = replies ∧
      replies.length = ((reads.map ReadRes.line).filter is_request).length := by
  induction reads with
  | nil => intro ctx nw replies _ hs; simp [serve] at hs
  | cons r rs ih =>
    intro ctx nw replies hreads hs
    have hr0 : r.rc = 0 := hreads r (List.mem_cons_self _ _)
    have hrs : ∀ x ∈ rs, x.rc = 0 := fun x hx => hreads x (List.mem_cons_of_mem _ hx)
    rcases process_cases K app se wres ctx r rs nw with
      ⟨hne, _⟩ | ⟨_, hsk, e⟩ | ⟨f, _, hsk, hf, e⟩ | ⟨d, _, hsk, hd, hb, e⟩ |
      ⟨d, _, hsk, hd, hb, hw, e⟩ | ⟨d, _, _, _, _, hw, _⟩
    · exact absurd hr0 hne
    · have hreq : is_request r.line = false := by
        rw [skipped_with_line] at hsk; simpa using hsk
      simp only [List.map_cons, List.filter_cons, hreq] at hs ⊢
      rw [← serve_with_line K app se ctx r.line] at hs
      obtain ⟨h1, h2, h3, h4⟩ := ih (with_line ctx r.line) nw replies hrs hs
      rw [e]
      refine ⟨h1, ?_, ?_, h4⟩
      · rw [Run.after_events, dispatched, List.filterMap_append]
        simpa [dispatched] using h2
      · rw [Run.after_events, written, List.filterMap_append]
        simpa [written] using h3
    · have hreq : is_request r.line = true := by
        rw [skipped_with_line] at hsk; simpa using hsk
      simp [List.filter_cons, hreq, serve, hf] at hs
    · have hreq : is_request r.line = true := by
        rw [skipped_with_line] at hsk; simpa using hsk
      simp only [List.map_cons, List.filter_cons, hreq, if_true, serve, hd, if_pos hb] at hs ⊢
      by_cases hnil : List.filter is_request (List.map ReadRes.line rs) = []
      · rw [if_pos hnil] at hs
        cases hs
        rw [e, hnil]
        simp [dispatched, written]
      · rw [if_neg hnil] at hs
        cases hs
    · have hreq : is_request r.line = true := by
        rw [skipped_with_line] at hsk; simpa using hsk
      simp only [List.map_cons, List.filter_cons, hreq, if_true, serve, hd, if_neg hb] at hs ⊢
      cases hsv : serve K app se d.ctx (List.filter is_request (List.map ReadRes.line rs)) with
      | none => rw [hsv] at hs; cases hs
      | some rest =>
        rw [hsv] at hs
        simp only [Option.map_some', Option.some.injEq] at hs
        obtain ⟨h1, h2, h3, h4⟩ := ih d.ctx (nw + 1) rest hrs hsv
        rw [e, ← hs]
        refine ⟨h1, ?_, ?_, by simp [h4]⟩
        · rw [Run.after_events, dispatched, List.filterMap_append]
          simpa [dispatched] using h2
        · rw [Run.after_events, written, List.filterMap_append]
          simpa [written] using h3
    · exact absurd (hwrites nw) hw

/-- CLAIM C7.  Let the input be lines read without error, among them `n` request lines
and then a last request, mixed with any number of empty lines and lines that
start with `#`; let the `n` requests have results other than -1 and the last
the result -1 (the reference `serve` gives replies), and let all writes
succeed.  Then `assuan_process` returns 0, dispatches exactly the `n + 1`
requests, in order, and writes exactly `n + 1` lines, the i-th being the reply
computed from the i-th request. -/
theorem process_reply_count (K : Defs) (app : AppHandlers) (se : Int → List Char)
    (wres : Nat → Int) (ctx : Ctx) (reads : List ReadRes) (nw : Nat)
    (reqs : List (List Char)) (bye : List Char) (replies : List (List Char))
    (hreads : ∀ r ∈ reads, r.rc = 0) (hwrites : ∀ k, wres k = 0)
    (hreqs : (reads.map ReadRes.line).filter is_request = reqs ++ [bye])
    (hserve : serve K app se ctx (reqs ++ [bye]) = some replies) :
    (assuan_process K app se wres ctx reads nw).outcome = .returned 0 ∧
    dispatched (assuan_process K app se wres ctx reads nw).events = reqs ++ [bye] ∧
    (dispatched (assuan_process K app se wres ctx reads nw).events).length = reqs.length + 1 ∧
    written (assuan_process K app se wres ctx reads nw).events = replies ∧
    (written (assuan_process K app se wres ctx reads nw).events).length = reqs.length + 1 := by
  rw [← hreqs] at hserve
  obtain ⟨h1, h2, h3, h4⟩ := process_serves K app se wres hwrites reads ctx nw replies hreads hserve
  rw [hreqs] at h2 h4
  refine ⟨h1, h2, ?_, h3, ?_⟩
  · rw [h2]; simp
  · rw [h3, h4]; simp

/-- Witness for `process_reply_count`: two requests and `BYE` among a comment
line, an empty line and a line that is `#` alone, on the standard context. -/
theorem process_reply_count_witness :
    (assuan_process sample_defs sample_app sample_strerror (fun _ => 0) std_ctx
        [⟨0, "# hi".toList⟩, ⟨0, []⟩, ⟨0, "NOP".toList⟩, ⟨0, "#".toList⟩,
          ⟨0, "CANCEL now".toList⟩, ⟨0, []⟩, ⟨0, "BYE".toList⟩] 0).outcome = .returned 0 ∧
    dispatched (assuan_process sample_defs sample_app sample_strerror (fun _ => 0) std_ctx
        [⟨0, "# hi".toList⟩, ⟨0, []⟩, ⟨0, "NOP".toList⟩, ⟨0, "#".toList⟩,
          ⟨0, "CANCEL now".toList⟩, ⟨0, []⟩, ⟨0, "BYE".toList⟩] 0).events
      = ["NOP".toList, "CANCEL now".toList] ++ ["BYE".toList] ∧
    (dispatched (assuan_process sample_defs sample_app sample_strerror (fun _ => 0) std_ctx
        [⟨0, "# hi".toList⟩, ⟨0, []⟩, ⟨0, "NOP".toList⟩, ⟨0, "#".toList⟩,
          ⟨0, "CANCEL now".toList⟩, ⟨0, []⟩, ⟨0, "BYE".toList⟩] 0).events).length
      = ["NOP".toList, "CANCEL now".toList].length + 1 ∧
    written (assuan_process sample_defs sample_app sample_strerror (fun _ => 0) std_ctx
        [⟨0, "# hi".toList⟩, ⟨0, []⟩, ⟨0, "NOP".toList⟩, ⟨0, "#".toList⟩,
          ⟨0, "CANCEL now".toList⟩, ⟨0, []⟩, ⟨0, "BYE".toList⟩] 0).events
      = ["OK".toList, "ERR 100 error 100".toList, farewell] ∧
    (written (assuan_process sample_defs sample_app sample_strerror (fun _ => 0) std_ctx
        [⟨0, "# hi".toList⟩, ⟨0, []⟩, ⟨0, "NOP".toList⟩, ⟨0, "#".toList⟩,
          ⟨0, "CANCEL now".toList⟩, ⟨0, []⟩, ⟨0, "BYE".toList⟩] 0).events).length
      = ["NOP".toList, "CANCEL now".toList].length + 1 :=
  process_reply_count sample_defs sample_app sample_strerror (fun _ => 0) std_ctx
    [⟨0, "# hi".toList⟩, ⟨0, []⟩, ⟨0, "NOP".toList⟩, ⟨0, "#".toList⟩,
      ⟨0, "CANCEL now".toList⟩, ⟨0, []⟩, ⟨0, "BYE".toList⟩] 0
    ["NOP".toList, "CANCEL now".toList] "BYE".toList
    ["OK".toList, "ERR 100 error 100".toList, farewell]
    (by decide) (fun _ => rfl) (by decide) (by decide)

/-- In every run of `assuan_process`: a read that returns a non-zero code `e`
is the last event and the run returns `e`; a write of a reply other than the
farewell that returns a non-zero code `e` is the last event, and the run
returns `e`, except that it returns 0 when `e` is -1; and the run returns 0 only
when a dispatch had the result -1 or a write returned -1. -/
theorem io_error_ends_run (K : Defs) (app : AppHandlers) (se : Int → List Char)
    (wres : Nat → Int) (reads : List ReadRes) (ctx : Ctx) (nw : Nat) :
    (∀ pre post rc l,
      (assuan_process K app se wres ctx reads nw).events = pre ++ Event.read rc l :: post →
      rc ≠ 0 →
      post = [] ∧ (assuan_process K app se wres ctx reads nw).outcome = .returned rc) ∧
    (∀ pre post l w,
      (assuan_process K app se wres ctx reads nw).events = pre ++ Event.write l w :: post →
      l ≠ farewell → w ≠ 0 →
      post = [] ∧ (assuan_process K app se wres ctx reads nw).outcome
        = .returned (if w = -1 then 0 else w)) ∧
    ((assuan_process K app se wres ctx reads nw).outcome = .returned 0 →
      (∃ l calls, Event.dispatch l (-1) calls
          ∈ (assuan_process K app se wres ctx reads nw).events) ∨
      (∃ l, Event.write l (-1) ∈ (assuan_process K app se wres ctx reads nw).events)) := by
  induction reads generalizing ctx nw with
  | nil => simp [assuan_process]
  | cons r rs ih =>
    rcases process_cases K app se wres ctx r rs nw with
      ⟨hne, e⟩ | ⟨_, _, e⟩ | ⟨f, _, _, _, e⟩ | ⟨d, _, _, _, hb, e⟩ | ⟨d, _, _, _, hb, hw, e⟩ |
      ⟨d, _, _, _, hb, hw, e⟩
    all_goals rw [e]
    · refine ⟨?_, ?_, ?_⟩
      · intro pre post rc l h hrc
        rcases pre with _ | ⟨_, _ | ⟨_, _⟩⟩ <;> simp at h
        obtain ⟨⟨h1, _⟩, h2⟩ := h
        exact ⟨h2, by rw [h1]⟩
      · intro pre post l w h
        rcases pre with _ | ⟨_, _ | ⟨_, _⟩⟩ <;> simp at h
      · intro h
        simp only [Outcome.returned.injEq] at h
        exact absurd h hne
    · obtain ⟨ih1, ih2, ih3⟩ := ih (with_line ctx r.line) nw
      refine ⟨?_, ?_, ?_⟩
      · intro pre post rc l h hrc
        rw [Run.after_events] at h
        obtain ⟨pre1, h1⟩ := split_after (by simp; exact fun h2 _ => hrc h2) h
        exact ih1 pre1 post rc l h1 hrc
      · intro pre post l w h hl hw0
        rw [Run.after_events] at h
        obtain ⟨pre1, h1⟩ := split_after (by simp) h
        exact ih2 pre1 post l w h1 hl hw0
      · intro h
        rw [Run.after_outcome] at h
        rcases ih3 h with ⟨l, calls, hm⟩ | ⟨l, hm⟩
        · exact Or.inl ⟨l, calls, by rw [Run.after_events]; exact List.mem_append_right _ hm⟩
        · exact Or.inr ⟨l, by rw [Run.after_events]; exact List.mem_append_right _ hm⟩
    · refine ⟨?_, ?_, ?_⟩
      · intro pre post rc l h hrc
        rcases pre with _ | ⟨_, _ | ⟨_, _⟩⟩ <;> simp at h
        exact absurd h.1.1.symm hrc
      · intro pre post l w h
        rcases pre with _ | ⟨_, _ | ⟨_, _⟩⟩ <;> simp at h
      · intro h
        cases h
    · refine ⟨?_, ?_, ?_⟩
      · intro pre post rc l h hrc
        rcases pre with _ | ⟨_, _ | ⟨_, _ | ⟨_, _⟩⟩⟩ <;> simp at h
        exact absurd h.1.1.symm hrc
      · intro pre post l w h hl
        rcases pre with _ | ⟨_, _ | ⟨_, _ | ⟨_, _⟩⟩⟩ <;> simp at h
        exact absurd h.2.2.1.1.symm hl
      · intro _
        exact Or.inl ⟨r.line, d.calls, by rw [hb]; simp⟩
    · obtain ⟨ih1, ih2, ih3⟩ := ih d.ctx (nw + 1)
      refine ⟨?_, ?_, ?_⟩
      · intro pre post rc l h hrc
        rw [Run.after_events] at h
        obtain ⟨pre1, h1⟩ := split_after (by simp; exact fun h2 _ => hrc h2) h
        exact ih1 pre1 post rc l h1 hrc
      · intro pre post l w h hl hw0
        rw [Run.after_events] at h
        obtain ⟨pre1, h1⟩ := split_after (by simp; exact fun _ h2 => hw0 (h2.trans hw)) h
        exact ih2 pre1 post l w h1 hl hw0
      · intro h
        rw [Run.after_outcome] at h
        rcases ih3 h with ⟨l, calls, hm⟩ | ⟨l, hm⟩
        · exact Or.inl ⟨l, calls, by rw [Run.after_events]; exact List.mem_append_right _ hm⟩
        · exact Or.inr ⟨l, by rw [Run.after_events]; exact List.mem_append_right _ hm⟩
    · refine ⟨?_, ?_, ?_⟩
      · intro pre post rc l h hrc
        rcases pre with _ | ⟨_, _ | ⟨_, _ | ⟨_, _⟩⟩⟩ <;> simp at h
        exact absurd h.1.1.symm hrc
      · intro pre post l w h hl hw0
        rcases pre with _ | ⟨_, _ | ⟨_, _ | ⟨_, _⟩⟩⟩ <;> simp at h
        obtain ⟨⟨_, h1⟩, h2⟩ := h.2.2
        refine ⟨h2, ?_⟩
        rw [← h1]
      · intro h
        simp only [Outcome.returned.injEq] at h
        by_cases hm : wres nw = -1
        · exact Or.inr ⟨reply_line K se d, by rw [hm]; simp⟩
        · rw [if_neg hm] at h
          exact absurd h hw

/-- CLAIM C8 (defect of the code).  On the standard context the request `NOP` is
answered by `OK`.  When the write of that reply fails with the code -1,
`assuan_process` stops at that call, the second line unread, and returns 0,
although no dispatch had the result -1: what the claim says of an I/O error
fails on this run.  The same write failing with the code 6 makes the run
return 6, and a read failing with the code -1 makes it return -1. -/
theorem reply_write_error_swallowed :
    (assuan_process sample_defs sample_app sample_strerror (fun _ => -1) std_ctx
        [⟨0, "NOP".toList⟩, ⟨0, "NOP".toList⟩] 0).events
      = [Event.read 0 "NOP".toList,
          Event.dispatch "NOP".toList 0 [(Handler.std_handler_nop, [])],
          Event.write "OK".toList (-1)] ∧
    (assuan_process sample_defs sample_app sample_strerror (fun _ => -1) std_ctx
        [⟨0, "NOP".toList⟩, ⟨0, "NOP".toList⟩] 0).outcome = .returned 0 ∧
    ¬ io_errors_fatal (assuan_process sample_defs sample_app sample_strerror (fun _ => -1)
        std_ctx [⟨0, "NOP".toList⟩, ⟨0, "NOP".toList⟩] 0) ∧
    (assuan_process sample_defs sample_app sample_strerror (fun _ => 6) std_ctx
        [⟨0, "NOP".toList⟩, ⟨0, "NOP".toList⟩] 0).outcome = .returned 6 ∧
    (assuan_process sample_defs sample_app sample_strerror (fun _ => 0) std_ctx
        [⟨-1, []⟩, ⟨0, "NOP".toList⟩] 0).outcome = .returned (-1) := by
  refine ⟨by decide, by decide, ?_, by decide, by decide⟩
  intro h
  have h2 := h.2.1 [Event.read 0 "NOP".toList,
      Event.dispatch "NOP".toList 0 [(Handler.std_handler_nop, [])]] [] "OK".toList (-1)
    (by decide) (by decide) (by decide)
  exact absurd h2.2 (by decide)

/-- A datagram of another sender at the head of the queue, with no buffer
allocated yet: the reader peeks at it for ever and never returns. -/
theorem spoof_never_returns (fuel : Nat) (ctx : DomainCtx) (d : Datagram)
    (rest : List Datagram) (buflen : Nat) (hs : d.sender ≠ ctx.serveraddr)
    (ha : ctx.domainbufferallocated = 0) :
    domain_reader_start fuel 0 ctx (d :: rest) buflen = none := by
  induction fuel generalizing ctx with
  | zero => simp [domain_reader_start]
  | succ k ih =>
    rw [domain_reader_start]
    simp only [ne_eq, not_true_eq_false, if_false, ha, Int.toNat_zero, Nat.min_zero,
      List.take_zero, List.drop_zero, List.nil_append, if_pos hs, Nat.cast_zero]
    exact ih _ hs rfl

/-- CLAIM C5 (the code at the failing inputs).  With a datagram of another sender ahead
of a datagram of the peer, and the buffer state of `_assuan_domain_init`, the
reader never returns, whatever the fuel, while without the foreign datagram it
returns the bytes of the peer.  After a datagram of the peer has been read, a
datagram of another sender is not removed from the queue either: its bytes
are in the buffer, two of them are copied to the caller, and the assertion on
`domainbuffersize` fails. -/
theorem spoofed_datagram_not_consumed :
    (∀ fuel, domain_reader fuel (_assuan_domain_init "/tmp/peer".toList)
        [⟨"/tmp/evil".toList, [69, 86, 73, 76]⟩, ⟨"/tmp/peer".toList, [78, 79, 80]⟩] 16
      = none) ∧
    domain_reader 2 (_assuan_domain_init "/tmp/peer".toList)
        [⟨"/tmp/peer".toList, [78, 79, 80]⟩] 16
      = some (.returned 3 [78, 79, 80],
          { serveraddr := "/tmp/peer".toList, domainbuffer := [78, 79, 80],
            domainbufferoffset := 3, domainbuffersize := 0, domainbufferallocated := 4096 },
          []) ∧
    domain_reader 2 (_assuan_domain_init "/tmp/peer".toList)
        [⟨"/tmp/peer".toList, [78, 79]⟩, ⟨"/tmp/evil".toList, [69, 86, 73, 76]⟩] 16
      = some (.returned 2 [78, 79],
          { serveraddr := "/tmp/peer".toList, domainbuffer := [78, 79],
            domainbufferoffset := 2, domainbuffersize := 0, domainbufferallocated := 4096 },
          [⟨"/tmp/evil".toList, [69, 86, 73, 76]⟩]) ∧
    domain_reader 2
        { serveraddr := "/tmp/peer".toList, domainbuffer := [78, 79],
          domainbufferoffset := 2, domainbuffersize := 0, domainbufferallocated := 4096 }
        [⟨"/tmp/evil".toList, [69, 86, 73, 76]⟩] 16
      = some (.assert_failed [73, 76],
          { serveraddr := "/tmp/peer".toList, domainbuffer := [69, 86, 73, 76],
            domainbufferoffset := 2, domainbuffersize := -4, domainbufferallocated := 4096 },
          [⟨"/tmp/evil".toList, [69, 86, 73, 76]⟩]) :=
  ⟨fun fuel => spoof_never_returns fuel _ _ _ 16 (by decide) rfl, by decide, by decide,
    by decide⟩

/-- Taking the first `m` of the buffered bytes leaves the others buffered, `m`
places further. -/
theorem buffered_split (buf : List Nat) (o : Nat) (b : List Nat) (m : Nat)
    (h : (buf.drop o).take b.length = b) (hm : m ≤ b.length) :
    (buf.drop o).take m = b.take m ∧
      (buf.drop (o + m)).take (b.drop m).length = b.drop m := by
  constructor
  · conv_rhs => rw [← h]
    rw [List.take_take, Nat.min_eq_left hm]
  · conv_rhs => rw [← h]
    rw [List.drop_take, List.drop_drop, List.length_drop]

/-- The copy to the caller, on a context that holds the bytes `b`: it returns
the first `buflen` of them (all of them when they are fewer) and leaves the
others buffered; no assertion fails. -/
theorem copy_out_holds (ctx : DomainCtx) (b : List Nat) (q : List Datagram) (buflen : Nat)
    (h : holds ctx b) :
    ∃ ctx1, copy_out (b.length : Int) ctx q buflen
        = (.returned ((min b.length buflen : Nat) : Int) (b.take buflen), ctx1, q) ∧
      holds ctx1 (b.drop buflen) ∧ ctx1.serveraddr = ctx.serveraddr ∧
      ctx1.domainbufferallocated = ctx.domainbufferallocated := by
  obtain ⟨ho, hsize, hdata, hfit⟩ := h
  obtain ⟨o, hoff⟩ := Int.eq_ofNat_of_zero_le ho
  have hm : min b.length buflen ≤ b.length := Nat.min_le_left _ _
  have hlen1 : (if ((b.length : Int) < 0 ∨ (b.length : Int) > (buflen : Int)) then (buflen : Int)
      else (b.length : Int)) = ((min b.length buflen : Nat) : Int) := by
    by_cases hc : b.length > buflen
    · rw [if_pos (Or.inr (by exact_mod_cast hc)), Nat.min_eq_right (le_of_lt hc)]
    · rw [if_neg (by
        intro h1
        rcases h1 with h1 | h1
        · omega
        · exact hc (by exact_mod_cast h1)), Nat.min_eq_left (not_lt.mp hc)]
  rw [hoff] at hdata hfit
  simp only [Int.toNat_ofNat] at hdata
  obtain ⟨hd1, hd2⟩ := buffered_split ctx.domainbuffer o b (min b.length buflen) hdata hm
  have htake : b.take (min b.length buflen) = b.take buflen := by
    rw [List.take_eq_take]
    simp [Nat.min_comm]
  have hdrop : b.drop (min b.length buflen) = b.drop buflen := by
    by_cases hc : b.length ≤ buflen
    · rw [Nat.min_eq_left hc, List.drop_eq_nil_of_le (le_refl _), List.drop_eq_nil_of_le hc]
    · rw [Nat.min_eq_right (le_of_lt (not_le.mp hc))]
  have hdl : ((b.drop buflen).length : Int) = (b.length : Int) - (min b.length buflen : Nat) := by
    rw [← hdrop, List.length_drop]
    omega
  unfold copy_out
  simp only [hlen1, hoff, hsize, Int.toNat_ofNat]
  rw [if_neg (by omega), if_neg (by omega)]
  refine ⟨{ ctx with
      domainbufferoffset := (o : Int) + ((min b.length buflen : Nat) : Int),
      domainbuffersize := (b.length : Int) - ((min b.length buflen : Nat) : Int) },
    ?_, ⟨?_, ?_, ?_, ?_⟩, rfl, rfl⟩
  · rw [hd1, htake]
  · show (0 : Int) ≤ (o : Int) + ((min b.length buflen : Nat) : Int)
    omega
  · show (b.length : Int) - ((min b.length buflen : Nat) : Int) = ((b.drop buflen).length : Int)
    omega
  · show (List.drop ((o : Int) + ((min b.length buflen : Nat) : Int)).toNat
      ctx.domainbuffer).take (b.drop buflen).length = b.drop buflen
    have : ((o : Int) + ((min b.length buflen : Nat) : Int)).toNat = o + min b.length buflen := by
      omega
    rw [this, ← hdrop, hd2]
  · show (o : Int) + ((min b.length buflen : Nat) : Int)
      + ((b.length : Int) - ((min b.length buflen : Nat) : Int)) ≤ ctx.domainbufferallocated
    omega

/-- No wrap-around inside the range of `int`. -/
theorem wrap_int_of_range (x : Int) (h0 : 0 ≤ x) (h1 : x < 2 ^ 31) : wrap_int x = x := by
  unfold wrap_int
  have e31 : (2 : Int) ^ 31 = 2147483648 := by norm_num
  have e32 : (2 : Int) ^ 32 = 4294967296 := by norm_num
  rw [e31] at h1 ⊢
  rw [e32]
  omega

/-- A read with nothing buffered and a datagram of the peer at the head of the
queue: with fuel for the enlargements of the buffer, the datagram is received
whole, removed from the queue, and its first `buflen` bytes are returned; the
others stay buffered. -/
theorem read_fresh (fuel : Nat) (ctx : DomainCtx) (p : List Nat) (rest : List Datagram)
    (buflen : Nat) (ha : 0 ≤ ctx.domainbufferallocated)
    (ha2 : ctx.domainbufferallocated < 2 ^ 31) (hp : p.length ≤ 2 ^ 30)
    (hfuel : p.length - ctx.domainbufferallocated.toNat < fuel) :
    ∃ ctx1, domain_reader_start fuel 0 ctx (⟨ctx.serveraddr, p⟩ :: rest) buflen
        = some (.returned ((min p.length buflen : Nat) : Int) (p.take buflen), ctx1, rest) ∧
      holds ctx1 (p.drop buflen) ∧ ctx1.serveraddr = ctx.serveraddr ∧
      0 ≤ ctx1.domainbufferallocated ∧ ctx1.domainbufferallocated < 2 ^ 31 := by
  have e31 : (2 : Int) ^ 31 = 2147483648 := by norm_num
  have e30 : (2 : Nat) ^ 30 = 1073741824 := by norm_num
  rw [e31] at ha2 ⊢
  rw [e30] at hp
  induction fuel generalizing ctx with
  | zero => omega
  | succ k ih =>
    rw [domain_reader_start]
    simp only [ne_eq, not_true_eq_false, if_false]
    by_cases htr : p.length > ctx.domainbufferallocated.toNat
    · rw [if_pos htr]
      have hsz : (if ctx.domainbufferallocated = 0 then (4 * 1024 : Int)
          else wrap_int (ctx.domainbufferallocated * 2))
          = (if ctx.domainbufferallocated = 0 then (4096 : Int)
              else ctx.domainbufferallocated * 2) := by
        split
        · norm_num
        · rw [wrap_int_of_range _ (by omega) (by rw [e31]; omega)]
      rw [hsz]
      have hnn : ¬ (if ctx.domainbufferallocated = 0 then (4096 : Int)
          else ctx.domainbufferallocated * 2) < 0 := by
        split <;> omega
      rw [if_neg hnn]
      have hgrow : ctx.domainbufferallocated < (if ctx.domainbufferallocated = 0 then (4096 : Int)
          else ctx.domainbufferallocated * 2) := by
        split <;> omega
      have hlt : (if ctx.domainbufferallocated = 0 then (4096 : Int)
          else ctx.domainbufferallocated * 2) < 2147483648 := by
        split <;> omega
      obtain ⟨ctx1, h1, h2, h3, h4, h5⟩ := ih
        { ctx with
          domainbuffer := [],
          domainbufferallocated := (if ctx.domainbufferallocated = 0 then (4096 : Int)
            else ctx.domainbufferallocated * 2) }
        (by simp only; omega) (by simp only; omega) (by simp only; omega)
      exact ⟨ctx1, h1, h2, h3, h4, h5⟩
    · rw [if_neg htr]
      have hn : min p.length ctx.domainbufferallocated.toNat = p.length :=
        Nat.min_eq_left (not_lt.mp htr)
      simp only [hn, List.take_length]
      obtain ⟨ctx1, h1, h2, h3, h4⟩ := copy_out_holds
        { ctx with
          domainbuffer := p ++ ctx.domainbuffer.drop p.length,
          domainbuffersize := (p.length : Int), domainbufferoffset := 0 } p rest buflen
        ⟨le_refl _, rfl, by simp, by simp only; omega⟩
      exact ⟨ctx1, by rw [h1], h2, h3, by rw [h4]; exact ha, by rw [h4]; exact ha2⟩

/-- With a value of `len` other than 0 the reader goes straight to the copy. -/
theorem domain_reader_start_buffered (fuel : Nat) (len : Int) (ctx : DomainCtx)
    (q : List Datagram) (buflen : Nat) (h : len ≠ 0) :
    domain_reader_start fuel len ctx q buflen = some (copy_out len ctx q buflen) := by
  cases fuel <;> simp [domain_reader_start, h]

/-- Reads, each of at least one byte, from a context that holds the bytes `b`
and a queue of datagrams of the peer: with read sizes enough to empty buffer
and queue, every read returns, at most as many bytes as asked for, and the
chunks returned make up `b` followed by the payloads in their order. -/
theorem drain_peer (fuel : Nat) (wants : List Nat) :
    ∀ (ctx : DomainCtx) (q : List Datagram) (b : List Nat),
      holds ctx b →
      (∀ d ∈ q, d.sender = ctx.serveraddr ∧ d.payload.length ≤ 2 ^ 30 ∧
        d.payload.length < fuel) →
      0 ≤ ctx.domainbufferallocated → ctx.domainbufferallocated < 2 ^ 31 →
      (∀ w ∈ wants, 1 ≤ w) →
      b.length + reads_needed q ≤ wants.length →
      ∃ chunks, drain fuel ctx q wants = some chunks ∧
        chunks.flatten = b ++ (q.map Datagram.payload).flatten ∧
        chunks.length ≤ wants.length ∧
        List.Forall₂ (fun c w => c.length ≤ w) chunks (wants.take chunks.length) := by
  induction wants with
  | nil =>
    intro ctx q b hb hq _ _ _ hlen
    have hlen0 : b.length + reads_needed q ≤ 0 := hlen
    have hb0 : b = [] := List.eq_nil_of_length_eq_zero (by omega)
    have hq0 : q = [] := by
      cases q with
      | nil => rfl
      | cons d rest => simp only [reads_needed] at hlen0; omega
    subst hb0 hq0
    refine ⟨[], ?_, by simp, by simp, by simp⟩
    rw [drain, if_pos ⟨rfl, by simpa using hb.2.1⟩]
  | cons w ws ih =>
    intro ctx q b hb hq ha ha2 hw hlen
    have hw1 : 1 ≤ w := hw w (List.mem_cons_self _ _)
    have hws : ∀ x ∈ ws, 1 ≤ x := fun x hx => hw x (List.mem_cons_of_mem _ hx)
    rw [drain]
    by_cases hdone : q = [] ∧ ctx.domainbuffersize = 0
    · rw [if_pos hdone]
      have hb0 : b = [] := List.eq_nil_of_length_eq_zero (by
        have := hb.2.1; rw [hdone.2] at this; exact_mod_cast this.symm)
      refine ⟨[], rfl, by simp [hb0, hdone.1], by simp, by simp⟩
    · rw [if_neg hdone]
      by_cases hbn : b = []
      · subst hbn
        have hs0 : ctx.domainbuffersize = 0 := by simpa using hb.2.1
        cases q with
        | nil => exact absurd ⟨rfl, hs0⟩ hdone
        | cons d rest =>
          obtain ⟨hsender, hp, hpf⟩ := hq d (List.mem_cons_self _ _)
          obtain ⟨ctx1, h1, h2, h3, h4, h5⟩ := read_fresh fuel ctx d.payload rest w ha ha2 hp
            (by omega)
          have hd : d = ⟨ctx.serveraddr, d.payload⟩ := by
            cases d; simp at hsender; simp [hsender]
          have hread : domain_reader fuel ctx (d :: rest) w
              = some (.returned ((min d.payload.length w : Nat) : Int) (d.payload.take w),
                  ctx1, rest) := by
            rw [domain_reader, hs0, hd]
            exact h1
          obtain ⟨chunks, c1, c2, c3, c4⟩ := ih ctx1 rest (d.payload.drop w) h2
            (fun x hx => by
              rw [h3]; exact hq x (List.mem_cons_of_mem _ hx))
            h4 h5 hws (by
              simp only [reads_needed, List.length_nil, List.length_cons, List.length_drop]
                at hlen ⊢
              omega)
          refine ⟨d.payload.take w :: chunks, ?_, ?_, ?_, ?_⟩
          · simp only [hread]
            rw [if_neg (by omega), c1]
            rfl
          · simp [c2, ← List.append_assoc]
          · simpa using c3
          · simp only [List.length_cons, List.take_succ_cons, List.forall₂_cons]
            exact ⟨by simp, c4⟩
      · have hbl : 0 < b.length := List.length_pos.mpr hbn
        obtain ⟨ctx1, h1, h2, h3, h4⟩ := copy_out_holds ctx b q w hb
        have hread : domain_reader fuel ctx q w
            = some (.returned ((min b.length w : Nat) : Int) (b.take w), ctx1, q) := by
          rw [domain_reader, hb.2.1, domain_reader_start_buffered _ _ _ _ _ (by omega), h1]
        obtain ⟨chunks, c1, c2, c3, c4⟩ := ih ctx1 q (b.drop w) h2
          (fun x hx => by rw [h3]; exact hq x hx)
          (by rw [h4]; exact ha) (by rw [h4]; exact ha2) hws (by
            simp only [List.length_cons, List.length_drop] at hlen ⊢
            omega)
        refine ⟨b.take w :: chunks, ?_, ?_, ?_, ?_⟩
        · simp only [hread]
          rw [if_neg (by omega), c1]
          rfl
        · simp [c2, ← List.append_assoc]
        · simpa using c3
        · simp only [List.length_cons, List.take_succ_cons, List.forall₂_cons]
          exact ⟨by simp, c4⟩

/-- CLAIM C6.  From the buffer state of `_assuan_domain_init`, with two datagrams of
the peer in the queue, of payloads `p1` and `p2` (each of at most `2 ^ 30`
bytes), reads of sizes `wants`, each at least 1 and enough of them, all
return; each returns at most as many bytes as asked for; and when queue and
buffer are empty the chunks returned make up `p1` followed by `p2`: a stream
of `p1.length + p2.length` bytes that starts with `p1`. -/
theorem datagram_resequencing (peer : List Char) (p1 p2 : List Nat) (wants : List Nat)
    (fuel : Nat) (hp1 : p1.length ≤ 2 ^ 30) (hp2 : p2.length ≤ 2 ^ 30)
    (hfuel1 : p1.length < fuel) (hfuel2 : p2.length < fuel)
    (hw : ∀ w ∈ wants, 1 ≤ w) (hlen : p1.length + p2.length + 2 ≤ wants.length) :
    ∃ chunks, drain fuel (_assuan_domain_init peer) [⟨peer, p1⟩, ⟨peer, p2⟩] wants
        = some chunks ∧
      chunks.flatten = p1 ++ p2 ∧
      chunks.flatten.length = p1.length + p2.length ∧
      chunks.flatten.take p1.length = p1 ∧
      List.Forall₂ (fun c w => c.length ≤ w) chunks (wants.take chunks.length) := by
  obtain ⟨chunks, c1, c2, _, c4⟩ := drain_peer fuel wants (_assuan_domain_init peer)
    [⟨peer, p1⟩, ⟨peer, p2⟩] []
    ⟨le_refl _, rfl, rfl, le_refl _⟩
    (by
      intro d hd
      simp only [List.mem_cons, List.mem_singleton, List.not_mem_nil, or_false] at hd
      rcases hd with rfl | rfl
      · exact ⟨rfl, hp1, hfuel1⟩
      · exact ⟨rfl, hp2, hfuel2⟩)
    (le_refl _) (by norm_num [_assuan_domain_init]) hw
    (by simp [reads_needed]; omega)
  have c2' : chunks.flatten = p1 ++ p2 := by simpa using c2
  exact ⟨chunks, c1, c2', by rw [c2']; simp, by rw [c2']; simp, c4⟩

/-- Witness for `datagram_resequencing`: payloads of 5 and 2 bytes read with
sizes 2, 2, 3, 1, 1, 4, 1, 1, 1. -/
theorem datagram_resequencing_witness :
    ∃ chunks, drain 6 (_assuan_domain_init "/tmp/peer".toList)
        [⟨"/tmp/peer".toList, [1, 2, 3, 4, 5]⟩, ⟨"/tmp/peer".toList, [6, 7]⟩]
        [2, 2, 3, 1, 1, 4, 1, 1, 1] = some chunks ∧
      chunks.flatten = [1, 2, 3, 4, 5] ++ [6, 7] ∧
      chunks.flatten.length = [1, 2, 3, 4, 5].length + [6, 7].length ∧
      chunks.flatten.take [1, 2, 3, 4, 5].length = [1, 2, 3, 4, 5] ∧
      List.Forall₂ (fun c w => c.length ≤ w) chunks
        ([2, 2, 3, 1, 1, 4, 1, 1, 1].take chunks.length) :=
  datagram_resequencing "/tmp/peer".toList [1, 2, 3, 4, 5] [6, 7] [2, 2, 3, 1, 1, 4, 1, 1, 1] 6
    (by norm_num) (by norm_num) (by decide) (by decide) (by decide) (by decide)

/-- In a list of rows with pairwise different ids, the search for the id of a
row finds that row. -/
theorem find_row (l : List StdCmd) (e : StdCmd)
    (hd : l.Pairwise (fun a b => a.cmd_id ≠ b.cmd_id)) (he : e ∈ l) :
    l.find? (fun x => decide (x.cmd_id = e.cmd_id)) = some e := by
  induction l with
  | nil => simp at he
  | cons x xs ih =>
    rw [List.pairwise_cons] at hd
    rcases List.mem_cons.mp he with rfl | hin
    · simp
    · have hne : x.cmd_id ≠ e.cmd_id := hd.1 e hin
      simp only [List.find?_cons, hne, decide_False]
      exact ih hd.2 hin

/-- The registration of the id of a row of `std_cmd_table`, without a name:
the entry gets the name of the row and the handler supplied, or the handler of
the row. -/
theorem register_std_row (K : Defs) (ctx : Ctx) (e : StdCmd) (h : Option Handler) (a : Bool)
    (hK : std_ids_ok K = true) (he : e ∈ std_cmd_table K) :
    assuan_register_command K ctx e.cmd_id none h a
      = append_command K ctx ⟨e.name, e.cmd_id, h.getD e.handler⟩ a := by
  simp only [std_ids_ok, Bool.and_eq_true, decide_eq_true_eq, List.all_eq_true] at hK
  have hlt : e.cmd_id < K.ASSUAN_CMD_USER := hK.2 e he
  have hf := find_row (std_cmd_table K) e hK.1 he
  simp [assuan_register_command, hlt, hf]

/-- A registration that returns 0 has done what it does when its allocation
succeeds. -/
theorem append_command_flag (K : Defs) (ctx : Ctx) (c : Cmd) (a : Bool)
    (hooc : K.ASSUAN_Out_Of_Core ≠ 0) (h0 : (append_command K ctx c a).1 = 0) :
    append_command K ctx c a = append_command K ctx c true := by
  cases a with
  | true => rfl
  | false =>
    unfold append_command at h0 ⊢
    cases ht : ctx.cmdtbl with
    | none => simp [ht, hooc] at h0
    | some t =>
      simp only [ht] at h0 ⊢
      by_cases hfull : ctx.cmdtbl_used ≥ ctx.cmdtbl_size
      · simp [hfull, hooc] at h0
      · simp [hfull]

/-- The loop of `_assuan_register_std_commands`, when it returns 0, appends
the entries of the rows marked `always`, in the order of the table. -/
theorem register_std_loop_entries (K : Defs) (hK : std_ids_ok K = true)
    (hooc : K.ASSUAN_Out_Of_Core ≠ 0) (rows : List StdCmd) :
    ∀ (ctx : Ctx) (allocs : List Bool), (∀ e ∈ rows, e ∈ std_cmd_table K) →
      registry_ok ctx = true → (register_std_loop K rows ctx allocs).1 = 0 →
      entries (register_std_loop K rows ctx allocs).2
          = entries ctx ++ (rows.filter (fun e => e.always)).map StdCmd.cell ∧
        registry_ok (register_std_loop K rows ctx allocs).2 = true := by
  induction rows with
  | nil => intro ctx allocs _ hok _; simp [register_std_loop, hok]
  | cons e es ih =>
    intro ctx allocs hrows hok h0
    have hes : ∀ x ∈ es, x ∈ std_cmd_table K := fun x hx => hrows x (List.mem_cons_of_mem _ hx)
    rw [register_std_loop] at h0 ⊢
    by_cases hal : e.always = true
    · simp only [hal, if_true] at h0 ⊢
      rw [register_std_row K ctx e none _ hK (hrows e (List.mem_cons_self _ _))] at h0 ⊢
      simp only [Option.getD_none] at h0 ⊢
      by_cases hrc : (append_command K ctx ⟨e.name, e.cmd_id, e.handler⟩ (allocs.headD true)).1 = 0
      · rw [if_neg (by simpa using hrc)] at h0 ⊢
        rw [append_command_flag K ctx _ _ hooc hrc] at h0 ⊢
        obtain ⟨_, h2, h3⟩ := append_command_entries K ctx ⟨e.name, e.cmd_id, e.handler⟩ hok
        obtain ⟨i1, i2⟩ := ih _ allocs.tail hes h3 h0
        refine ⟨?_, i2⟩
        rw [i1, h2]
        simp [List.filter_cons, hal, StdCmd.cell]
      · rw [if_pos (by simpa using hrc)] at h0
        exact absurd h0 hrc
    · have hal0 : e.always = false := by simpa using hal
      simp only [hal0, Bool.false_eq_true, if_false] at h0 ⊢
      obtain ⟨i1, i2⟩ := ih ctx allocs hes hok h0
      refine ⟨?_, i2⟩
      rw [i1]
      simp [List.filter_cons, hal0]

/-- The entries after a successful `_assuan_register_std_commands`: those of
before, then `NOP`, `CANCEL`, `BYE`, `AUTH`, `RESET` and `END` with their
standard handlers. -/
theorem register_std_entries (K : Defs) (hK : std_ids_ok K = true)
    (hooc : K.ASSUAN_Out_Of_Core ≠ 0) (ctx : Ctx) (allocs : List Bool)
    (hok : registry_ok ctx = true) (h0 : (_assuan_register_std_commands K ctx allocs).1 = 0) :
    entries (_assuan_register_std_commands K ctx allocs).2
        = entries ctx ++
          [Cell.entry ⟨"NOP".toList, K.ASSUAN_CMD_NOP, .std_handler_nop⟩,
            Cell.entry ⟨"CANCEL".toList, K.ASSUAN_CMD_CANCEL, .std_handler_cancel⟩,
            Cell.entry ⟨"BYE".toList, K.ASSUAN_CMD_BYE, .std_handler_bye⟩,
            Cell.entry ⟨"AUTH".toList, K.ASSUAN_CMD_AUTH, .std_handler_auth⟩,
            Cell.entry ⟨"RESET".toList, K.ASSUAN_CMD_RESET, .std_handler_reset⟩,
            Cell.entry ⟨"END".toList, K.ASSUAN_CMD_END, .std_handler_end⟩] ∧
      registry_ok (_assuan_register_std_commands K ctx allocs).2 = true := by
  obtain ⟨h1, h2⟩ := register_std_loop_entries K hK hooc (std_cmd_table K) ctx allocs
    (fun _ h => h) hok h0
  refine ⟨?_, h2⟩
  rw [_assuan_register_std_commands, h1]
  rfl

/-- Dispatch of the name of an entry that stands in the table after entries
named otherwise: a form of `dispatch_found` for a table given as the entries
of an older context followed by explicit entries. -/
theorem dispatch_std_entry (K : Defs) (app : AppHandlers) (ctx : Ctx)
    (base before after : List Cell) (e : Cmd) (tail : List Char)
    (ht : ctx.cmdtbl = some (base ++ (before ++ Cell.entry e :: after)))
    (hbase : ∀ c ∈ base, ∃ e1, c = Cell.entry e1 ∧ e1.name ≠ e.name)
    (hbefore : before.all (fun c => c.is_entry && !c.named e.name) = true)
    (hw : e.name ≠ []) (hws : ∀ c ∈ e.name, is_ws c = false)
    (htail : ∀ c, tail.head? = some c → is_ws c = true)
    (hD : e.name.head? ≠ some 'D') :
    dispatch_command K app ctx (e.name ++ tail) =
      .ok ⟨(call_handler K app e.handler
              (if tail = [] then ctx else { ctx with inbound_line := e.name })
              ((tail.drop 1).dropWhile is_ws)).1,
           (call_handler K app e.handler
              (if tail = [] then ctx else { ctx with inbound_line := e.name })
              ((tail.drop 1).dropWhile is_ws)).2,
           [(e.handler, ((tail.drop 1).dropWhile is_ws))]⟩ := by
  have hD1 : (e.name ++ tail).take 2 ≠ ['D', ' '] := by
    intro hcon
    apply hD
    cases hn : e.name with
    | nil => exact absurd hn hw
    | cons c cs =>
      rw [hn] at hcon
      simp at hcon
      simp [hcon.1]
  have hpre : ∀ c ∈ base ++ before, ∃ e1, c = Cell.entry e1 ∧ e1.name ≠ e.name := by
    intro c hc
    rcases List.mem_append.mp hc with h1 | h1
    · exact hbase c h1
    · have := List.all_eq_true.mp hbefore c h1
      cases c with
      | entry e1 => exact ⟨e1, rfl, by simpa [Cell.is_entry, Cell.named] using this⟩
      | zero => simp [Cell.is_entry] at this
      | junk => simp [Cell.is_entry] at this
  exact dispatch_found K app ctx e.name tail (base ++ before) after e hw hws htail hD1
    (by rw [ht, List.append_assoc]) rfl hpre

/-- CLAIM C11 (defect of the code).  On the standard context the registration of the id
of `CANCEL` with the application handler 7 returns 0 and adds a second entry
named `CANCEL`; the line `CANCEL` still calls `std_handler_cancel` and
returns `Not_Implemented`, not the 7 that the handler 7 returns: the handler
is accepted and never called.  The same parameter is honoured for `INPUT`,
which the standard registration leaves out, and for `CANCEL` when it is
registered before the standard commands: there the line calls the handler 7. -/
theorem override_not_honoured :
    (∃ c1, assuan_register_command sample_defs std_ctx sample_defs.ASSUAN_CMD_CANCEL none
          (some (.app 7)) true = (0, c1) ∧
      entries c1 = entries std_ctx ++ [Cell.entry ⟨"CANCEL".toList, 1, .app 7⟩] ∧
      dispatch_command sample_defs sample_app c1 "CANCEL".toList
        = .ok ⟨sample_defs.ASSUAN_Not_Implemented, { c1 with err_no := 100, err_str := none },
              [(.std_handler_cancel, [])]⟩ ∧
      call_handler sample_defs sample_app (.app 7) c1 [] = (7, c1)) ∧
    (∃ c2, assuan_register_command sample_defs std_ctx sample_defs.ASSUAN_CMD_INPUT none
          (some (.app 7)) true = (0, c2) ∧
      dispatch_command sample_defs sample_app c2 "INPUT".toList
        = .ok ⟨7, c2, [(.app 7, [])]⟩) ∧
    (∃ c3 c4, assuan_register_command sample_defs fresh_ctx sample_defs.ASSUAN_CMD_CANCEL none
          (some (.app 7)) true = (0, c3) ∧
      _assuan_register_std_commands sample_defs c3 [] = (0, c4) ∧
      entries c4 = Cell.entry ⟨"CANCEL".toList, 1, .app 7⟩ :: entries std_ctx ∧
      dispatch_command sample_defs sample_app c4 "CANCEL".toList
        = .ok ⟨7, c4, [(.app 7, [])]⟩) :=
  ⟨⟨_, rfl, rfl, rfl, rfl⟩, ⟨_, rfl, rfl⟩, ⟨_, _, rfl, rfl, rfl, rfl⟩⟩

/-- The entry that a registration after the standard ones adds for `X`, one of
`CANCEL`, `AUTH`, `RESET`, `END`, is not reached by the lookup, whatever the
handler `h`: on a context with a well-formed registry and no entry named like
`X`, on which `_assuan_register_std_commands` has returned 0, the call
`assuan_register_command (ctx, X, NULL, h)`, its allocation succeeding,
returns 0 and appends an entry with the name of `X` and the handler `h`, and a
dispatch of the name of `X` on the resulting context calls the standard handler
of the entry registered first, once, and returns `Not_Implemented`. -/
theorem late_std_entry_shadowed (K : Defs) (app : AppHandlers) (ctx0 : Ctx) (allocs : List Bool)
    (X : StdCmd) (h : Handler) (tail : List Char)
    (hK : std_ids_ok K = true) (hooc : K.ASSUAN_Out_Of_Core ≠ 0)
    (hok : registry_ok ctx0 = true)
    (hstd : (_assuan_register_std_commands K ctx0 allocs).1 = 0)
    (hX : X ∈ overridable K)
    (hfresh : (entries ctx0).all (fun c => !c.named X.name) = true)
    (htail : ∀ c, tail.head? = some c → is_ws c = true) :
    (assuan_register_command K (_assuan_register_std_commands K ctx0 allocs).2 X.cmd_id none
        (some h) true).1 = 0 ∧
    entries (assuan_register_command K (_assuan_register_std_commands K ctx0 allocs).2 X.cmd_id
        none (some h) true).2
      = entries (_assuan_register_std_commands K ctx0 allocs).2
          ++ [Cell.entry ⟨X.name, X.cmd_id, h⟩] ∧
    ∃ c1, dispatch_command K app
        (assuan_register_command K (_assuan_register_std_commands K ctx0 allocs).2 X.cmd_id
          none (some h) true).2 (X.name ++ tail)
      = .ok ⟨K.ASSUAN_Not_Implemented, c1, [(X.handler, (tail.drop 1).dropWhile is_ws)]⟩ := by
  obtain ⟨hent, hok1⟩ := register_std_entries K hK hooc ctx0 allocs hok hstd
  have hXt : X ∈ std_cmd_table K := by
    simp only [overridable, List.mem_cons, List.mem_singleton, List.not_mem_nil, or_false] at hX
    rcases hX with rfl | rfl | rfl | rfl <;> simp [std_cmd_table]
  rw [register_std_row K _ X (some h) true hK hXt]
  simp only [Option.getD_some]
  obtain ⟨h1, h2, _⟩ := append_command_entries K (_assuan_register_std_commands K ctx0 allocs).2
    ⟨X.name, X.cmd_id, h⟩ hok1
  obtain ⟨post, _, htbl, _, _⟩ := append_command_ok K
    (_assuan_register_std_commands K ctx0 allocs).2 ⟨X.name, X.cmd_id, h⟩ hok1
  refine ⟨h1, h2, ?_⟩
  rw [hent] at htbl
  have hbase : ∀ c ∈ entries ctx0, ∃ e1, c = Cell.entry e1 ∧ e1.name ≠ X.name :=
    entries_named_otherwise ctx0 X.name hok (by
      intro c hc e1 he
      have := List.all_eq_true.mp hfresh c hc
      rw [he] at this
      simpa [Cell.named] using this)
  simp only [overridable, List.mem_cons, List.mem_singleton, List.not_mem_nil, or_false] at hX
  rcases hX with rfl | rfl | rfl | rfl
  · have key := dispatch_std_entry K app _ (entries ctx0)
      [Cell.entry ⟨"NOP".toList, K.ASSUAN_CMD_NOP, .std_handler_nop⟩]
      ([Cell.entry ⟨"BYE".toList, K.ASSUAN_CMD_BYE, .std_handler_bye⟩,
        Cell.entry ⟨"AUTH".toList, K.ASSUAN_CMD_AUTH, .std_handler_auth⟩,
        Cell.entry ⟨"RESET".toList, K.ASSUAN_CMD_RESET, .std_handler_reset⟩,
        Cell.entry ⟨"END".toList, K.ASSUAN_CMD_END, .std_handler_end⟩]
        ++ Cell.entry ⟨"CANCEL".toList, K.ASSUAN_CMD_CANCEL, h⟩ :: post)
      ⟨"CANCEL".toList, K.ASSUAN_CMD_CANCEL, .std_handler_cancel⟩ tail
      (by rw [htbl]; simp) hbase (by simp [Cell.is_entry, Cell.named])
      (by show "CANCEL".toList ≠ []; decide)
      (by show ∀ c ∈ "CANCEL".toList, is_ws c = false; decide) htail
      (by show "CANCEL".toList.head? ≠ some 'D'; decide)
    exact ⟨_, by rw [key]; rfl⟩
  · have key := dispatch_std_entry K app _ (entries ctx0)
      [Cell.entry ⟨"NOP".toList, K.ASSUAN_CMD_NOP, .std_handler_nop⟩,
        Cell.entry ⟨"CANCEL".toList, K.ASSUAN_CMD_CANCEL, .std_handler_cancel⟩,
        Cell.entry ⟨"BYE".toList, K.ASSUAN_CMD_BYE, .std_handler_bye⟩]
      ([Cell.entry ⟨"RESET".toList, K.ASSUAN_CMD_RESET, .std_handler_reset⟩,
        Cell.entry ⟨"END".toList, K.ASSUAN_CMD_END, .std_handler_end⟩]
        ++ Cell.entry ⟨"AUTH".toList, K.ASSUAN_CMD_AUTH, h⟩ :: post)
      ⟨"AUTH".toList, K.ASSUAN_CMD_AUTH, .std_handler_auth⟩ tail
      (by rw [htbl]; simp) hbase (by simp [Cell.is_entry, Cell.named])
      (by show "AUTH".toList ≠ []; decide)
      (by show ∀ c ∈ "AUTH".toList, is_ws c = false; decide) htail
      (by show "AUTH".toList.head? ≠ some 'D'; decide)
    exact ⟨_, by rw [key]; rfl⟩
  · have key := dispatch_std_entry K app _ (entries ctx0)
      [Cell.entry ⟨"NOP".toList, K.ASSUAN_CMD_NOP, .std_handler_nop⟩,
        Cell.entry ⟨"CANCEL".toList, K.ASSUAN_CMD_CANCEL, .std_handler_cancel⟩,
        Cell.entry ⟨"BYE".toList, K.ASSUAN_CMD_BYE, .std_handler_bye⟩,
        Cell.entry ⟨"AUTH".toList, K.ASSUAN_CMD_AUTH, .std_handler_auth⟩]
      ([Cell.entry ⟨"END".toList, K.ASSUAN_CMD_END, .std_handler_end⟩]
        ++ Cell.entry ⟨"RESET".toList, K.ASSUAN_CMD_RESET, h⟩ :: post)
      ⟨"RESET".toList, K.ASSUAN_CMD_RESET, .std_handler_reset⟩ tail
      (by rw [htbl]; simp) hbase (by simp [Cell.is_entry, Cell.named])
      (by show "RESET".toList ≠ []; decide)
      (by show ∀ c ∈ "RESET".toList, is_ws c = false; decide) htail
      (by show "RESET".toList.head? ≠ some 'D'; decide)
    exact ⟨_, by rw [key]; rfl⟩
  · have key := dispatch_std_entry K app _ (entries ctx0)
      [Cell.entry ⟨"NOP".toList, K.ASSUAN_CMD_NOP, .std_handler_nop⟩,
        Cell.entry ⟨"CANCEL".toList, K.ASSUAN_CMD_CANCEL, .std_handler_cancel⟩,
        Cell.entry ⟨"BYE".toList, K.ASSUAN_CMD_BYE, .std_handler_bye⟩,
        Cell.entry ⟨"AUTH".toList, K.ASSUAN_CMD_AUTH, .std_handler_auth⟩,
        Cell.entry ⟨"RESET".toList, K.ASSUAN_CMD_RESET, .std_handler_reset⟩]
      (Cell.entry ⟨"END".toList, K.ASSUAN_CMD_END, h⟩ :: post)
      ⟨"END".toList, K.ASSUAN_CMD_END, .std_handler_end⟩ tail
      (by rw [htbl]; simp) hbase (by simp [Cell.is_entry, Cell.named])
      (by show "END".toList ≠ []; decide)
      (by show ∀ c ∈ "END".toList, is_ws c = false; decide) htail
      (by show "END".toList.head? ≠ some 'D'; decide)
    exact ⟨_, by rw [key]; rfl⟩

/-- The loop of `strtoul` over digits computes the number they write. -/
theorem foldl_digits (ds : List Char) :
    ds.foldl (fun acc c => 10 * acc + (c.toNat - 48)) 0 = decimal_value ds := by
  unfold decimal_value
  rw [Nat.ofDigits_eq_foldr, List.foldr_reverse, List.foldl_map]
  congr 1
  funext acc c
  simp [Nat.add_comm]

/-- On a string of digits `strtoul` reads the whole string. -/
theorem strtoul_digits (ds : List Char) (hdig : ∀ c ∈ ds, digitp c = true) :
    strtoul_value ds = min (decimal_value ds) ULONG_MAX ∧ strtoul_endp ds = [] := by
  have htake : ds.takeWhile digitp = ds := by
    rw [List.takeWhile_eq_self_iff]
    exact hdig
  have hdrop : ds.dropWhile digitp = [] := by
    rw [List.dropWhile_eq_nil_iff]
    exact hdig
  exact ⟨by rw [strtoul_value, htake, foldl_digits], hdrop⟩

/-- A number below `2 ^ 31` is stored as it is. -/
theorem stored_fd_small (n : Nat) (h : n < 2 ^ 31) : stored_fd n = (n : Int) := by
  have e31 : (2 : Nat) ^ 31 = 2147483648 := by norm_num
  rw [e31] at h
  unfold stored_fd to_int ULONG_MAX
  have hmin : min n (2 ^ 64 - 1) = n := by
    apply Nat.min_eq_left
    norm_num
    omega
  rw [hmin]
  have hmod : n % 2 ^ 32 = n := Nat.mod_eq_of_lt (by norm_num; omega)
  rw [hmod, if_pos (by norm_num; omega)]

/-- The function `parse_cmd_input_output` on `FD=` followed by digits only:
the number is stored, and compared with the descriptors of the context. -/
theorem parse_digits (K : Defs) (ctx : Ctx) (ds : List Char) (hne : ds ≠ [])
    (hdig : ∀ c ∈ ds, digitp c = true) :
    parse_cmd_input_output K ctx ("FD=".toList ++ ds) =
      if stored_fd (decimal_value ds) = ctx.inbound_fd then
        (K.ASSUAN_Parameter_Conflict,
          { ctx with err_no := K.ASSUAN_Parameter_Conflict,
                     err_str := some "fd same as inbound fd".toList },
          some (stored_fd (decimal_value ds)))
      else if stored_fd (decimal_value ds) = ctx.outbound_fd then
        (K.ASSUAN_Parameter_Conflict,
          { ctx with err_no := K.ASSUAN_Parameter_Conflict,
                     err_str := some "fd same as outbound fd".toList },
          some (stored_fd (decimal_value ds)))
      else (0, ctx, some (stored_fd (decimal_value ds))) := by
  obtain ⟨hv, he⟩ := strtoul_digits ds hdig
  obtain ⟨c, cs, rfl⟩ := List.exists_cons_of_ne_nil hne
  have hc : digitp c = true := hdig c (List.mem_cons_self _ _)
  have h3 : ("FD=".toList ++ c :: cs).take 3 = "FD=".toList := by simp
  have hd3 : ("FD=".toList ++ c :: cs).drop 3 = c :: cs := by simp
  unfold parse_cmd_input_output
  simp only [h3, hd3, ne_eq, not_true_eq_false, if_false, hc, Bool.not_true, Bool.false_eq_true,
    he, hv, set_error]
  rfl

/-- CLAIM C12 (as stated, refuted).  The number 2147483648 differs from both descriptors
of the context, yet `INPUT FD=2147483648` stores the negative value
-2147483648; the number 4294967298 is stored as 2 by `INPUT` and by `OUTPUT`;
and a number of 23 digits is stored as -1. -/
theorem fd_exact_counterexample :
    decimal_value "2147483648".toList = 2147483648 ∧
    std_handler_input sample_defs fresh_ctx "FD=2147483648".toList
      = (0, { fresh_ctx with input_fd := -2147483648 }) ∧
    decimal_value "4294967298".toList = 4294967298 ∧
    std_handler_input sample_defs fresh_ctx "FD=4294967298".toList
      = (0, { fresh_ctx with input_fd := 2 }) ∧
    std_handler_output sample_defs fresh_ctx "FD=4294967298".toList
      = (0, { fresh_ctx with output_fd := 2 }) ∧
    std_handler_input sample_defs fresh_ctx "FD=99999999999999999999999".toList
      = (0, { fresh_ctx with input_fd := -1 }) := by
  refine ⟨by decide, by decide, by decide, by decide, by decide, by decide⟩

/-- CLAIM C12 (amended).  For every number `n` below `2 ^ 31`, written in base 10 with
any number of digits, that differs from `ctx->inbound.fd` and from
`ctx->outbound.fd`: `std_handler_input` on `FD=<n>` returns 0 and sets
`ctx->input_fd` to exactly `n`, and `std_handler_output` returns 0 and sets
`ctx->output_fd` to exactly `n`; nothing else in the context changes. -/
theorem fd_exact (K : Defs) (ctx : Ctx) (ds : List Char) (hne : ds ≠ [])
    (hdig : ∀ c ∈ ds, digitp c = true) (hrange : decimal_value ds < 2 ^ 31)
    (hin : (decimal_value ds : Int) ≠ ctx.inbound_fd)
    (hout : (decimal_value ds : Int) ≠ ctx.outbound_fd) :
    std_handler_input K ctx ("FD=".toList ++ ds)
      = (0, { ctx with input_fd := (decimal_value ds : Int) }) ∧
    std_handler_output K ctx ("FD=".toList ++ ds)
      = (0, { ctx with output_fd := (decimal_value ds : Int) }) ∧
    (0 : Int) ≤ (decimal_value ds : Int) := by
  have hp := parse_digits K ctx ds hne hdig
  rw [stored_fd_small _ hrange, if_neg hin, if_neg hout] at hp
  refine ⟨?_, ?_, Int.natCast_nonneg _⟩
  · unfold std_handler_input
    rw [hp]
    rfl
  · unfold std_handler_output
    rw [hp]
    rfl

/-- Witness for `fd_exact`: the argument `FD=007`. -/
theorem fd_exact_witness :
    std_handler_input sample_defs fresh_ctx ("FD=".toList ++ "007".toList)
      = (0, { fresh_ctx with input_fd := (decimal_value "007".toList : Int) }) ∧
    std_handler_output sample_defs fresh_ctx ("FD=".toList ++ "007".toList)
      = (0, { fresh_ctx with output_fd := (decimal_value "007".toList : Int) }) ∧
    (0 : Int) ≤ (decimal_value "007".toList : Int) :=
  fd_exact sample_defs fresh_ctx "007".toList (by decide) (by decide) (by decide) (by decide)
    (by decide)

/-- The first element that `dropWhile` keeps does not satisfy the test. -/
theorem dropWhile_head_false (p : Char → Bool) (l : List Char) (c : Char) (rest : List Char)
    (h : l.dropWhile p = c :: rest) : p c = false := by
  induction l with
  | nil => simp at h
  | cons x xs ih =>
    rw [List.dropWhile_cons] at h
    by_cases hx : p x = true
    · rw [if_pos hx] at h
      exact ih h
    · rw [if_neg hx] at h
      simp only [List.cons.injEq] at h
      rw [← h.1]
      simpa using hx

/-- The elements that `takeWhile` keeps satisfy the test. -/
theorem takeWhile_all_true (p : Char → Bool) (l : List Char) :
    ∀ c ∈ l.takeWhile p, p c = true := by
  induction l with
  | nil => simp
  | cons x xs ih =>
    intro c hc
    rw [List.takeWhile_cons] at hc
    by_cases hx : p x = true
    · rw [if_pos hx] at hc
      rcases List.mem_cons.mp hc with rfl | h1
      · exact hx
      · exact ih c h1
    · rw [if_neg hx] at hc
      simp at hc

/-- The function `parse_cmd_input_output` on a line that does not start with
`FD=`. -/
theorem parse_no_fd (K : Defs) (ctx : Ctx) (line : List Char)
    (h : line.take 3 ≠ "FD=".toList) :
    parse_cmd_input_output K ctx line =
      (K.ASSUAN_Syntax_Error,
        { ctx with err_no := K.ASSUAN_Syntax_Error, err_str := some "FD=<n> expected".toList },
        none) := by
  unfold parse_cmd_input_output
  rw [if_pos h]
  rfl

/-- The function `parse_cmd_input_output` on `FD=` followed by something that
does not start with a digit. -/
theorem parse_no_number (K : Defs) (ctx : Ctx) (rest : List Char)
    (h : ∀ c, rest.head? = some c → digitp c = false) :
    parse_cmd_input_output K ctx ("FD=".toList ++ rest) =
      (K.ASSUAN_Syntax_Error,
        { ctx with err_no := K.ASSUAN_Syntax_Error, err_str := some "number required".toList },
        none) := by
  have h3 : ("FD=".toList ++ rest).take 3 = "FD=".toList := by simp
  have hd3 : ("FD=".toList ++ rest).drop 3 = rest := by simp
  unfold parse_cmd_input_output
  simp only [h3, hd3, ne_eq, not_true_eq_false, if_false]
  cases rest with
  | nil => rfl
  | cons c cs =>
    have hc : digitp c = false := h c rfl
    simp only [hc]
    rfl

/-- The function `parse_cmd_input_output` on `FD=`, digits, and something
else after them. -/
theorem parse_garbage (K : Defs) (ctx : Ctx) (ds g : List Char) (hne : ds ≠ [])
    (hdig : ∀ c ∈ ds, digitp c = true) (hg : g ≠ [])
    (hgh : ∀ c, g.head? = some c → digitp c = false) :
    parse_cmd_input_output K ctx ("FD=".toList ++ ds ++ g) =
      (K.ASSUAN_Syntax_Error,
        { ctx with err_no := K.ASSUAN_Syntax_Error, err_str := some "garbage found".toList },
        some (stored_fd (decimal_value ds))) := by
  obtain ⟨c, cs, rfl⟩ := List.exists_cons_of_ne_nil hne
  obtain ⟨x, xs, rfl⟩ := List.exists_cons_of_ne_nil hg
  have hc : digitp c = true := hdig c (List.mem_cons_self _ _)
  have hx : digitp x = false := hgh x rfl
  have h3 : ("FD=".toList ++ c :: cs ++ x :: xs).take 3 = "FD=".toList := by simp
  have hd3 : ("FD=".toList ++ c :: cs ++ x :: xs).drop 3 = c :: cs ++ x :: xs := by simp
  have htake : (c :: cs ++ x :: xs).takeWhile digitp = c :: cs := by
    rw [List.takeWhile_append_of_pos hdig]
    simp [List.takeWhile_cons, hx]
  have hdrop : (c :: cs ++ x :: xs).dropWhile digitp = x :: xs := by
    rw [List.dropWhile_append_of_pos hdig]
    simp [List.dropWhile_cons, hx]
  have hval : strtoul_value (c :: cs ++ x :: xs) = min (decimal_value (c :: cs)) ULONG_MAX := by
    rw [strtoul_value, htake, foldl_digits]
  have hend : strtoul_endp (c :: cs ++ x :: xs) = x :: xs := hdrop
  unfold parse_cmd_input_output
  simp only [h3, hd3, ne_eq, not_true_eq_false, if_false]
  have hfirst : (match c :: cs ++ x :: xs with
      | [] => false
      | c :: _ => digitp c) = true := hc
  simp only [hfirst, Bool.not_true, Bool.false_eq_true, if_false, hend, hval]
  rfl

/-- The ways `parse_cmd_input_output` can go, by the shape of the line. -/
theorem parse_shapes (line : List Char) :
    line.take 3 ≠ "FD=".toList ∨
    (∃ rest, line = "FD=".toList ++ rest ∧ ∀ c, rest.head? = some c → digitp c = false) ∨
    (∃ ds g, line = "FD=".toList ++ ds ++ g ∧ ds ≠ [] ∧ (∀ c ∈ ds, digitp c = true) ∧
      g ≠ [] ∧ ∀ c, g.head? = some c → digitp c = false) ∨
    (∃ ds, line = "FD=".toList ++ ds ∧ ds ≠ [] ∧ ∀ c ∈ ds, digitp c = true) := by
  by_cases h3 : line.take 3 = "FD=".toList
  · right
    have hline : line = "FD=".toList ++ line.drop 3 := by
      conv_lhs => rw [← List.take_append_drop 3 line, h3]
    cases hrest : line.drop 3 with
    | nil =>
      left
      exact ⟨[], by rw [hline, hrest], by simp⟩
    | cons c cs =>
      by_cases hc : digitp c = true
      · right
        have hsplit : c :: cs = (c :: cs).takeWhile digitp ++ (c :: cs).dropWhile digitp :=
          (List.takeWhile_append_dropWhile digitp (c :: cs)).symm
        have htne : (c :: cs).takeWhile digitp ≠ [] := by
          rw [List.takeWhile_cons, if_pos hc]
          simp
        cases hg : (c :: cs).dropWhile digitp with
        | nil =>
          right
          refine ⟨c :: cs, by rw [hline, hrest], by simp, ?_⟩
          rw [hg, List.append_nil] at hsplit
          intro x hx
          rw [hsplit] at hx
          exact takeWhile_all_true digitp _ x hx
        | cons x xs =>
          left
          refine ⟨(c :: cs).takeWhile digitp, x :: xs, ?_, htne,
            takeWhile_all_true digitp _, by simp, ?_⟩
          · rw [hline, hrest, List.append_assoc, ← hg, ← hsplit]
          · intro y hy
            simp only [List.head?_cons, Option.some.injEq] at hy
            rw [← hy]
            exact dropWhile_head_false digitp _ x xs hg
      · left
        refine ⟨c :: cs, by rw [hline, hrest], ?_⟩
        intro y hy
        simp only [List.head?_cons, Option.some.injEq] at hy
        rw [← hy]
        simpa using hc
  · left
    exact h3

/-- The handlers of `INPUT` and `OUTPUT` after a failed parse: they return its
code and leave the context as the parse left it. -/
theorem handlers_of_failed_parse (K : Defs) (ctx : Ctx) (line : List Char) (rc : Int)
    (c1 : Ctx) (fd : Option Int) (hp : parse_cmd_input_output K ctx line = (rc, c1, fd))
    (hrc : rc ≠ 0) :
    std_handler_input K ctx line = (rc, c1) ∧ std_handler_output K ctx line = (rc, c1) := by
  unfold std_handler_input std_handler_output
  rw [hp]
  simp [hrc]

/-- The handlers of `INPUT` and `OUTPUT` on `FD=` followed by digits only. -/
theorem handlers_digits (K : Defs) (ctx : Ctx) (ds : List Char) (hne : ds ≠ [])
    (hdig : ∀ c ∈ ds, digitp c = true) (hpc0 : K.ASSUAN_Parameter_Conflict ≠ 0) :
    std_handler_input K ctx ("FD=".toList ++ ds) =
      (if stored_fd (decimal_value ds) = ctx.inbound_fd then
        (K.ASSUAN_Parameter_Conflict,
          { ctx with err_no := K.ASSUAN_Parameter_Conflict,
                     err_str := some "fd same as inbound fd".toList })
      else if stored_fd (decimal_value ds) = ctx.outbound_fd then
        (K.ASSUAN_Parameter_Conflict,
          { ctx with err_no := K.ASSUAN_Parameter_Conflict,
                     err_str := some "fd same as outbound fd".toList })
      else (0, { ctx with input_fd := stored_fd (decimal_value ds) })) ∧
    std_handler_output K ctx ("FD=".toList ++ ds) =
      (if stored_fd (decimal_value ds) = ctx.inbound_fd then
        (K.ASSUAN_Parameter_Conflict,
          { ctx with err_no := K.ASSUAN_Parameter_Conflict,
                     err_str := some "fd same as inbound fd".toList })
      else if stored_fd (decimal_value ds) = ctx.outbound_fd then
        (K.ASSUAN_Parameter_Conflict,
          { ctx with err_no := K.ASSUAN_Parameter_Conflict,
                     err_str := some "fd same as outbound fd".toList })
      else (0, { ctx with output_fd := stored_fd (decimal_value ds) })) := by
  have hp := parse_digits K ctx ds hne hdig
  by_cases hin : stored_fd (decimal_value ds) = ctx.inbound_fd
  · rw [if_pos hin] at hp
    rw [if_pos hin, if_pos hin]
    exact handlers_of_failed_parse K ctx _ _ _ _ hp hpc0
  · rw [if_neg hin] at hp
    rw [if_neg hin, if_neg hin]
    by_cases hout : stored_fd (decimal_value ds) = ctx.outbound_fd
    · rw [if_pos hout] at hp
      rw [if_pos hout, if_pos hout]
      exact handlers_of_failed_parse K ctx _ _ _ _ hp hpc0
    · rw [if_neg hout] at hp
      rw [if_neg hout, if_neg hout]
      constructor
      · unfold std_handler_input
        rw [hp]
        rfl
      · unfold std_handler_output
        rw [hp]
        rfl

/-- CLAIM C13 (as stated, refuted).  The number 4294967296 is neither the inbound
descriptor 0 nor the outbound descriptor 1 of the context, yet
`INPUT FD=4294967296` and `OUTPUT FD=4294967296` return `Parameter_Conflict`
(the number is stored as 0), and so does `FD=4294967297` (stored as 1). -/
theorem fd_conflict_counterexample :
    decimal_value "4294967296".toList = 4294967296 ∧
    (4294967296 : Int) ≠ fresh_ctx.inbound_fd ∧ (4294967296 : Int) ≠ fresh_ctx.outbound_fd ∧
    (std_handler_input sample_defs fresh_ctx "FD=4294967296".toList).1
      = sample_defs.ASSUAN_Parameter_Conflict ∧
    (std_handler_output sample_defs fresh_ctx "FD=4294967296".toList).1
      = sample_defs.ASSUAN_Parameter_Conflict ∧
    (std_handler_input sample_defs fresh_ctx "FD=4294967297".toList).1
      = sample_defs.ASSUAN_Parameter_Conflict := by
  refine ⟨by decide, by decide, by decide, by decide, by decide, by decide⟩

/-- CLAIM C13 (amended).  For every argument line, `std_handler_input` and
`std_handler_output` return `Syntax_Error` when the line does not start with
`FD=` (detail "FD=<n> expected"), when what follows `FD=` does not start with a
decimal digit (detail "number required"), and when a character follows the
digits (detail "garbage found"); they return `Parameter_Conflict` exactly when
the line is `FD=<n>` and the `int` stored for `n` (`n` itself below `2 ^ 31`,
`n` reduced modulo `2 ^ 32` beyond) equals `ctx->inbound.fd` or
`ctx->outbound.fd`; and whenever they return an error `ctx->input_fd` and
`ctx->output_fd` are unchanged. -/
theorem fd_argument_errors (K : Defs) (ctx : Ctx) (line : List Char)
    (hse0 : K.ASSUAN_Syntax_Error ≠ 0) (hpc0 : K.ASSUAN_Parameter_Conflict ≠ 0)
    (hne : K.ASSUAN_Parameter_Conflict ≠ K.ASSUAN_Syntax_Error) :
    (line.take 3 ≠ "FD=".toList →
      std_handler_input K ctx line
        = (K.ASSUAN_Syntax_Error,
            { ctx with err_no := K.ASSUAN_Syntax_Error,
                       err_str := some "FD=<n> expected".toList }) ∧
      std_handler_output K ctx line
        = (K.ASSUAN_Syntax_Error,
            { ctx with err_no := K.ASSUAN_Syntax_Error,
                       err_str := some "FD=<n> expected".toList })) ∧
    (∀ rest, line = "FD=".toList ++ rest → (∀ c, rest.head? = some c → digitp c = false) →
      std_handler_input K ctx line
        = (K.ASSUAN_Syntax_Error,
            { ctx with err_no := K.ASSUAN_Syntax_Error,
                       err_str := some "number required".toList }) ∧
      std_handler_output K ctx line
        = (K.ASSUAN_Syntax_Error,
            { ctx with err_no := K.ASSUAN_Syntax_Error,
                       err_str := some "number required".toList })) ∧
    (∀ ds g, line = "FD=".toList ++ ds ++ g → ds ≠ [] → (∀ c ∈ ds, digitp c = true) →
      g ≠ [] → (∀ c, g.head? = some c → digitp c = false) →
      std_handler_input K ctx line
        = (K.ASSUAN_Syntax_Error,
            { ctx with err_no := K.ASSUAN_Syntax_Error,
                       err_str := some "garbage found".toList }) ∧
      std_handler_output K ctx line
        = (K.ASSUAN_Syntax_Error,
            { ctx with err_no := K.ASSUAN_Syntax_Error,
                       err_str := some "garbage found".toList })) ∧
    ((std_handler_input K ctx line).1 = K.ASSUAN_Parameter_Conflict ↔
      ∃ ds, line = "FD=".toList ++ ds ∧ ds ≠ [] ∧ (∀ c ∈ ds, digitp c = true) ∧
        (stored_fd (decimal_value ds) = ctx.inbound_fd ∨
          stored_fd (decimal_value ds) = ctx.outbound_fd)) ∧
    ((std_handler_output K ctx line).1 = K.ASSUAN_Parameter_Conflict ↔
      ∃ ds, line = "FD=".toList ++ ds ∧ ds ≠ [] ∧ (∀ c ∈ ds, digitp c = true) ∧
        (stored_fd (decimal_value ds) = ctx.inbound_fd ∨
          stored_fd (decimal_value ds) = ctx.outbound_fd)) ∧
    ((std_handler_input K ctx line).1 ≠ 0 →
      (std_handler_input K ctx line).2.input_fd = ctx.input_fd ∧
      (std_handler_input K ctx line).2.output_fd = ctx.output_fd) ∧
    ((std_handler_output K ctx line).1 ≠ 0 →
      (std_handler_output K ctx line).2.input_fd = ctx.input_fd ∧
      (std_handler_output K ctx line).2.output_fd = ctx.output_fd) := by
  have hA : line.take 3 ≠ "FD=".toList → _ := fun h =>
    handlers_of_failed_parse K ctx line _ _ _ (parse_no_fd K ctx line h) hse0
  have hB : ∀ rest, line = "FD=".toList ++ rest →
      (∀ c, rest.head? = some c → digitp c = false) → _ := fun rest hl h =>
    handlers_of_failed_parse K ctx line _ _ _ (hl ▸ parse_no_number K ctx rest h) hse0
  have hC : ∀ ds g, line = "FD=".toList ++ ds ++ g → ds ≠ [] → (∀ c ∈ ds, digitp c = true) →
      g ≠ [] → (∀ c, g.head? = some c → digitp c = false) → _ := fun ds g hl h1 h2 h3 h4 =>
    handlers_of_failed_parse K ctx line _ _ _ (hl ▸ parse_garbage K ctx ds g h1 h2 h3 h4) hse0
  have hsne : ¬ K.ASSUAN_Syntax_Error = K.ASSUAN_Parameter_Conflict := fun h => hne h.symm
  have h0ne : ¬ (0 : Int) = K.ASSUAN_Parameter_Conflict := fun h => hpc0 h.symm
  refine ⟨hA, hB, hC, ?_⟩
  rcases parse_shapes line with h3 | ⟨rest, hl, hr⟩ | ⟨ds, g, hl, hd1, hd2, hg1, hg2⟩ |
    ⟨ds, hl, hd1, hd2⟩
  · obtain ⟨e1, e2⟩ := hA h3
    have hno : ¬ ∃ ds, line = "FD=".toList ++ ds ∧ ds ≠ [] ∧ (∀ c ∈ ds, digitp c = true) ∧
        (stored_fd (decimal_value ds) = ctx.inbound_fd ∨
          stored_fd (decimal_value ds) = ctx.outbound_fd) := by
      rintro ⟨ds, hl, _⟩
      apply h3
      rw [hl]
      simp
    rw [e1, e2]
    exact ⟨⟨fun h => absurd h hsne, fun h => absurd h hno⟩,
      ⟨fun h => absurd h hsne, fun h => absurd h hno⟩, fun _ => ⟨rfl, rfl⟩, fun _ => ⟨rfl, rfl⟩⟩
  · obtain ⟨e1, e2⟩ := hB rest hl hr
    have hno : ¬ ∃ ds, line = "FD=".toList ++ ds ∧ ds ≠ [] ∧ (∀ c ∈ ds, digitp c = true) ∧
        (stored_fd (decimal_value ds) = ctx.inbound_fd ∨
          stored_fd (decimal_value ds) = ctx.outbound_fd) := by
      rintro ⟨ds, hl2, hne2, hdig2, _⟩
      rw [hl] at hl2
      have hrd : rest = ds := List.append_cancel_left hl2
      subst hrd
      obtain ⟨c, cs, rfl⟩ := List.exists_cons_of_ne_nil hne2
      have h1 := hr c rfl
      rw [hdig2 c (List.mem_cons_self _ _)] at h1
      cases h1
    rw [e1, e2]
    exact ⟨⟨fun h => absurd h hsne, fun h => absurd h hno⟩,
      ⟨fun h => absurd h hsne, fun h => absurd h hno⟩, fun _ => ⟨rfl, rfl⟩, fun _ => ⟨rfl, rfl⟩⟩
  · obtain ⟨e1, e2⟩ := hC ds g hl hd1 hd2 hg1 hg2
    have hno : ¬ ∃ ds, line = "FD=".toList ++ ds ∧ ds ≠ [] ∧ (∀ c ∈ ds, digitp c = true) ∧
        (stored_fd (decimal_value ds) = ctx.inbound_fd ∨
          stored_fd (decimal_value ds) = ctx.outbound_fd) := by
      rintro ⟨ds2, hl2, _, hdig2, _⟩
      rw [hl, List.append_assoc] at hl2
      have hrd : ds ++ g = ds2 := List.append_cancel_left hl2
      obtain ⟨x, xs, rfl⟩ := List.exists_cons_of_ne_nil hg1
      have h1 := hg2 x rfl
      rw [hdig2 x (by rw [← hrd]; simp)] at h1
      cases h1
    rw [e1, e2]
    exact ⟨⟨fun h => absurd h hsne, fun h => absurd h hno⟩,
      ⟨fun h => absurd h hsne, fun h => absurd h hno⟩, fun _ => ⟨rfl, rfl⟩, fun _ => ⟨rfl, rfl⟩⟩
  · obtain ⟨e1, e2⟩ := handlers_digits K ctx ds hd1 hd2 hpc0
    have hiff : (∃ ds2, line = "FD=".toList ++ ds2 ∧ ds2 ≠ [] ∧ (∀ c ∈ ds2, digitp c = true) ∧
        (stored_fd (decimal_value ds2) = ctx.inbound_fd ∨
          stored_fd (decimal_value ds2) = ctx.outbound_fd)) ↔
        (stored_fd (decimal_value ds) = ctx.inbound_fd ∨
          stored_fd (decimal_value ds) = ctx.outbound_fd) := by
      constructor
      · rintro ⟨ds2, hl2, _, _, h⟩
        rw [hl] at hl2
        have hrd : ds = ds2 := List.append_cancel_left hl2
        rw [hrd]
        exact h
      · intro h
        exact ⟨ds, hl, hd1, hd2, h⟩
    rw [hiff, hl, e1, e2]
    by_cases hin : stored_fd (decimal_value ds) = ctx.inbound_fd
    · rw [if_pos hin, if_pos hin]
      exact ⟨⟨fun _ => Or.inl hin, fun _ => rfl⟩, ⟨fun _ => Or.inl hin, fun _ => rfl⟩,
        fun _ => ⟨rfl, rfl⟩, fun _ => ⟨rfl, rfl⟩⟩
    · rw [if_neg hin, if_neg hin]
      by_cases hout : stored_fd (decimal_value ds) = ctx.outbound_fd
      · rw [if_pos hout, if_pos hout]
        exact ⟨⟨fun _ => Or.inr hout, fun _ => rfl⟩, ⟨fun _ => Or.inr hout, fun _ => rfl⟩,
          fun _ => ⟨rfl, rfl⟩, fun _ => ⟨rfl, rfl⟩⟩
      · rw [if_neg hout, if_neg hout]
        exact ⟨⟨fun h => absurd h h0ne, fun h => h.elim (fun h1 => absurd h1 hin)
            (fun h1 => absurd h1 hout)⟩,
          ⟨fun h => absurd h h0ne, fun h => h.elim (fun h1 => absurd h1 hin)
            (fun h1 => absurd h1 hout)⟩,
          fun h => absurd rfl h, fun h => absurd rfl h⟩

/-- Witness for `fd_argument_errors`: the argument `FD=garbage` on a fresh
context. -/
theorem fd_argument_errors_witness :
    (std_handler_input sample_defs fresh_ctx "FD=garbage".toList
        = (sample_defs.ASSUAN_Syntax_Error,
            { fresh_ctx with err_no := sample_defs.ASSUAN_Syntax_Error,
                             err_str := some "number required".toList }) ∧
      std_handler_output sample_defs fresh_ctx "FD=garbage".toList
        = (sample_defs.ASSUAN_Syntax_Error,
            { fresh_ctx with err_no := sample_defs.ASSUAN_Syntax_Error,
                             err_str := some "number required".toList })) ∧
    (std_handler_input sample_defs fresh_ctx "FD=garbage".toList).2.input_fd
      = fresh_ctx.input_fd ∧
    (std_handler_input sample_defs fresh_ctx "FD=garbage".toList).2.output_fd
      = fresh_ctx.output_fd :=
  ⟨(fd_argument_errors sample_defs fresh_ctx "FD=garbage".toList (by decide) (by decide)
      (by decide)).2.1 "garbage".toList rfl
      (by
        intro c h
        have hc : c = 'g' := by simpa using h.symm
        subst hc
        decide),
    ((fd_argument_errors sample_defs fresh_ctx "FD=garbage".toList (by decide) (by decide)
      (by decide)).2.2.2.2.2.1 (by decide))⟩

/-- The reply for a result of 100 or more that is the code of the sticky
diagnostic, when a detail is recorded. -/
theorem reply_line_detail (K : Defs) (se : Int → List Char) (d : Dispatched)
    (detail : List Char) (hrc : 100 ≤ d.rc) (herr : d.ctx.err_no = d.rc)
    (hstr : d.ctx.err_str = some detail) :
    reply_line K se d
      = "ERR ".toList ++ fmt_d d.rc ++ " ".toList ++ (se d.rc).take 50 ++ " - ".toList
          ++ detail.take 100 := by
  unfold reply_line format_errline
  rw [if_neg (by omega), if_neg (by omega)]
  simp [herr, hstr]

/-- CLAIM C14 (as stated, refuted).  The handler of `FAIL` records the detail "boom"
under the code 200; the handler of `AGAIN` returns 200 without calling
`set_error`.  Both requests are answered by `ERR 200 error 200 - boom`: the
detail is still attached when the second reply is formatted. -/
theorem sticky_detail_counterexample :
    (assuan_process sample_defs sticky_app sample_strerror (fun _ => 0) sticky_ctx
        [⟨0, "FAIL".toList⟩, ⟨0, "AGAIN".toList⟩] 0).events
      = [.read 0 "FAIL".toList, .dispatch "FAIL".toList 200 [(.app 1, [])],
          .write "ERR 200 error 200 - boom".toList 0,
          .read 0 "AGAIN".toList, .dispatch "AGAIN".toList 200 [(.app 200, [])],
          .write "ERR 200 error 200 - boom".toList 0] ∧
    call_handler sample_defs sticky_app (.app 200) sticky_ctx [] = (200, sticky_ctx) := by
  constructor
  · decide
  · rfl

/-- CLAIM C14 (amended).  Formatting and writing an `ERR` reply leaves the sticky
diagnostic in place: when a request is answered by an `ERR` line for the code
`rc >= 100` with the detail recorded by `set_error`, and the next request
returns the same `rc` with the diagnostic of the context as it was (its
handler did not call `set_error`), the second reply is the same line, with the
same `" - <detail>"` suffix. -/
theorem sticky_detail_stays (K : Defs) (app : AppHandlers) (se : Int → List Char)
    (wres : Nat → Int) (ctx : Ctx) (r1 r2 : ReadRes) (rs : List ReadRes) (nw : Nat)
    (d1 d2 : Dispatched) (detail : List Char)
    (hr1 : r1.rc = 0) (hs1 : skipped (with_line ctx r1.line) = false)
    (hd1 : dispatch_command K app (with_line ctx r1.line) r1.line = .ok d1)
    (hrc : 100 ≤ d1.rc) (herr : d1.ctx.err_no = d1.rc) (hstr : d1.ctx.err_str = some detail)
    (hw : wres nw = 0)
    (hr2 : r2.rc = 0) (hs2 : skipped (with_line d1.ctx r2.line) = false)
    (hd2 : dispatch_command K app (with_line d1.ctx r2.line) r2.line = .ok d2)
    (hsame : d2.rc = d1.rc) (hno : d2.ctx.err_no = d1.ctx.err_no)
    (hnos : d2.ctx.err_str = d1.ctx.err_str) :
    ∃ rest, (assuan_process K app se wres ctx (r1 :: r2 :: rs) nw).events
      = [.read 0 r1.line, .dispatch r1.line d1.rc d1.calls,
          .write ("ERR ".toList ++ fmt_d d1.rc ++ " ".toList ++ (se d1.rc).take 50
            ++ " - ".toList ++ detail.take 100) 0,
          .read 0 r2.line, .dispatch r2.line d1.rc d2.calls,
          .write ("ERR ".toList ++ fmt_d d1.rc ++ " ".toList ++ (se d1.rc).take 50
            ++ " - ".toList ++ detail.take 100) (wres (nw + 1))] ++ rest := by
  have hl1 := reply_line_detail K se d1 detail hrc herr hstr
  have hl2 := reply_line_detail K se d2 detail (by omega) (by rw [hno, herr, hsame])
    (by rw [hnos, hstr])
  rw [hsame] at hl2
  have hturn1 : assuan_process K app se wres ctx (r1 :: r2 :: rs) nw
      = (assuan_process K app se wres d1.ctx (r2 :: rs) (nw + 1)).after
          [.read 0 r1.line, .dispatch r1.line d1.rc d1.calls,
            .write (reply_line K se d1) (wres nw)] := by
    rcases process_cases K app se wres ctx r1 (r2 :: rs) nw with
      ⟨hne, _⟩ | ⟨_, hsk, _⟩ | ⟨f, _, _, hf, _⟩ | ⟨d, _, _, hd, hb, _⟩ |
      ⟨d, _, _, hd, _, _, e⟩ | ⟨d, _, _, _, _, hw1, _⟩
    · exact absurd hr1 hne
    · rw [hs1] at hsk; cases hsk
    · rw [hd1] at hf; cases hf
    · rw [hd1] at hd; cases hd; omega
    · rw [hd1] at hd; cases hd; exact e
    · exact absurd hw hw1
  rw [hturn1, Run.after_events, hl1, hw]
  rcases process_cases K app se wres d1.ctx r2 rs (nw + 1) with
    ⟨hne, _⟩ | ⟨_, hsk, _⟩ | ⟨f, _, _, hf, _⟩ | ⟨d, _, _, hd, hb, _⟩ |
    ⟨d, _, _, hd, _, _, e⟩ | ⟨d, _, _, hd, _, _, e⟩
  · exact absurd hr2 hne
  · rw [hs2] at hsk; cases hsk
  · rw [hd2] at hf; cases hf
  · rw [hd2] at hd; cases hd; omega
  · rw [hd2] at hd; cases hd
    rw [e, Run.after_events, hl2, hsame]
    exact ⟨(assuan_process K app se wres d2.ctx rs (nw + 1 + 1)).events, by simp⟩
  · rw [hd2] at hd; cases hd
    rw [e, hl2, hsame]
    exact ⟨[], by simp⟩

/-- Witness for `sticky_detail_stays`: the requests `FAIL` and `AGAIN`. -/
theorem sticky_detail_stays_witness :
    ∃ rest, (assuan_process sample_defs sticky_app sample_strerror (fun _ => 0) sticky_ctx
        [⟨0, "FAIL".toList⟩, ⟨0, "AGAIN".toList⟩] 0).events
      = [.read 0 "FAIL".toList, .dispatch "FAIL".toList 200 [(.app 1, [])],
          .write ("ERR ".toList ++ fmt_d 200 ++ " ".toList ++ (sample_strerror 200).take 50
            ++ " - ".toList ++ "boom".toList.take 100) 0,
          .read 0 "AGAIN".toList, .dispatch "AGAIN".toList 200 [(.app 200, [])],
          .write ("ERR ".toList ++ fmt_d 200 ++ " ".toList ++ (sample_strerror 200).take 50
            ++ " - ".toList ++ "boom".toList.take 100) 0] ++ rest :=
  sticky_detail_stays sample_defs sticky_app sample_strerror (fun _ => 0) sticky_ctx
    ⟨0, "FAIL".toList⟩ ⟨0, "AGAIN".toList⟩ [] 0
    ⟨200, { with_line sticky_ctx "FAIL".toList with
              err_no := 200, err_str := some "boom".toList }, [(.app 1, [])]⟩
    ⟨200, { with_line sticky_ctx "AGAIN".toList with
              err_no := 200, err_str := some "boom".toList }, [(.app 200, [])]⟩
    "boom".toList rfl (by decide) rfl (by decide) rfl rfl rfl rfl (by decide) rfl rfl rfl rfl

/-- The copy to the caller returns only with both assertions passed, and then
the buffer invariant holds. -/
theorem copy_out_inv (len : Int) (ctx : DomainCtx) (q : List Datagram) (buflen : Nat)
    (n : Int) (data : List Nat) (c1 : DomainCtx) (q1 : List Datagram)
    (hinv : buffer_inv ctx ∧ ctx.domainbufferallocated < 2 ^ 31)
    (h : copy_out len ctx q buflen = (.returned n data, c1, q1)) :
    buffer_inv c1 ∧ c1.domainbufferallocated < 2 ^ 31 := by
  obtain ⟨⟨h1, h2, h3⟩, h4⟩ := hinv
  unfold copy_out at h
  simp only at h
  generalize hlen1 : (if len < 0 ∨ len > (buflen : Int) then (buflen : Int) else len) = len1 at h
  have hl1 : 0 ≤ len1 := by
    rw [← hlen1]
    split
    · omega
    · rename_i hc
      omega
  by_cases hs : ctx.domainbuffersize - len1 < 0
  · rw [if_pos hs] at h
    simp at h
  · rw [if_neg hs] at h
    by_cases ho : ctx.domainbufferoffset + len1 > ctx.domainbufferallocated
    · rw [if_pos ho] at h
      simp at h
    · rw [if_neg ho] at h
      simp only [Prod.mk.injEq, ReadOutcome.returned.injEq] at h
      obtain ⟨_, hc, _⟩ := h
      subst hc
      refine ⟨⟨?_, ?_, ?_⟩, h4⟩
      · show 0 ≤ ctx.domainbufferoffset + len1
        omega
      · show 0 ≤ ctx.domainbuffersize - len1
        omega
      · show ctx.domainbufferoffset + len1 + (ctx.domainbuffersize - len1)
          ≤ ctx.domainbufferallocated
        omega

/-- Every call of the reader that returns leaves the buffer invariant in
place, whatever the senders of the datagrams in the queue. -/
theorem reader_start_inv (fuel : Nat) :
    ∀ (len : Int) (ctx : DomainCtx) (q : List Datagram) (buflen : Nat) (n : Int)
      (data : List Nat) (c1 : DomainCtx) (q1 : List Datagram),
      buffer_inv ctx ∧ ctx.domainbufferallocated < 2 ^ 31 →
      domain_reader_start fuel len ctx q buflen = some (.returned n data, c1, q1) →
      buffer_inv c1 ∧ c1.domainbufferallocated < 2 ^ 31 := by
  have e31 : (2 : Int) ^ 31 = 2147483648 := by norm_num
  have e32 : (2 : Int) ^ 32 = 4294967296 := by norm_num
  induction fuel with
  | zero =>
    intro len ctx q buflen n data c1 q1 hinv h
    by_cases hlen : len ≠ 0
    · rw [domain_reader_start_buffered _ _ _ _ _ hlen] at h
      exact copy_out_inv len ctx q buflen n data c1 q1 hinv (Option.some.inj h)
    · simp [domain_reader_start, hlen] at h
  | succ k ih =>
    intro len ctx q buflen n data c1 q1 hinv h
    by_cases hlen : len ≠ 0
    · rw [domain_reader_start_buffered _ _ _ _ _ hlen] at h
      exact copy_out_inv len ctx q buflen n data c1 q1 hinv (Option.some.inj h)
    · have hl0 : len = 0 := not_not.mp hlen
      subst hl0
      obtain ⟨⟨h1, h2, h3⟩, h4⟩ := hinv
      cases q with
      | nil => simp [domain_reader_start] at h
      | cons d rest =>
        rw [domain_reader_start] at h
        simp only [ne_eq, not_true_eq_false, if_false] at h
        by_cases hs : d.sender ≠ ctx.serveraddr
        · rw [if_pos hs] at h
          exact ih _ _ _ _ _ _ _ _ (by exact ⟨⟨h1, h2, h3⟩, h4⟩) h
        · rw [if_neg hs] at h
          by_cases htr : d.payload.length > ctx.domainbufferallocated.toNat
          · rw [if_pos htr] at h
            by_cases hneg : (if ctx.domainbufferallocated = 0 then (4 * 1024 : Int)
                else wrap_int (ctx.domainbufferallocated * 2)) < 0
            · rw [if_pos hneg] at h
              simp only [Option.some.injEq, Prod.mk.injEq, ReadOutcome.returned.injEq] at h
              obtain ⟨_, hc, _⟩ := h
              subst hc
              exact ⟨⟨h1, h2, h3⟩, h4⟩
            · rw [if_neg hneg] at h
              refine ih _ _ _ _ _ _ _ _ ?_ h
              refine ⟨⟨h1, h2, ?_⟩, ?_⟩
              · show ctx.domainbufferoffset + ctx.domainbuffersize
                  ≤ (if ctx.domainbufferallocated = 0 then (4 * 1024 : Int)
                    else wrap_int (ctx.domainbufferallocated * 2))
                split
                · omega
                · rename_i hz
                  rw [if_neg hz] at hneg
                  unfold wrap_int at hneg ⊢
                  rw [e31] at h4 hneg ⊢
                  rw [e32] at hneg ⊢
                  omega
              · show (if ctx.domainbufferallocated = 0 then (4 * 1024 : Int)
                    else wrap_int (ctx.domainbufferallocated * 2)) < 2 ^ 31
                split
                · norm_num
                · unfold wrap_int
                  rw [e31, e32]
                  omega
          · rw [if_neg htr] at h
            refine copy_out_inv _ _ _ _ _ _ _ _ ?_ (Option.some.inj h)
            refine ⟨⟨?_, ?_, ?_⟩, h4⟩
            · exact le_refl _
            · show (0 : Int) ≤ ((min d.payload.length ctx.domainbufferallocated.toNat : Nat) : Int)
              omega
            · show (0 : Int) + ((min d.payload.length ctx.domainbufferallocated.toNat : Nat) : Int)
                ≤ ctx.domainbufferallocated
              omega

/-- The buffer invariant along successive calls of the reader. -/
theorem read_calls_inv (fuel : Nat) (calls : List (List Datagram × Nat)) :
    ∀ (ctx : DomainCtx) (q : List Datagram),
      buffer_inv ctx ∧ ctx.domainbufferallocated < 2 ^ 31 →
      ∀ x ∈ read_calls fuel ctx q calls, buffer_inv x.1 ∧
        ∀ n data c1 q1, x.2.2 = some (.returned n data, c1, q1) → buffer_inv c1 := by
  induction calls with
  | nil => intro ctx q _ x hx; simp [read_calls] at hx
  | cons c more ih =>
    intro ctx q hinv x hx
    obtain ⟨arrivals, buflen⟩ := c
    rw [read_calls] at hx
    rcases List.mem_cons.mp hx with rfl | hx1
    · refine ⟨hinv.1, ?_⟩
      intro n data c1 q1 h
      have h1 : domain_reader_start fuel ctx.domainbuffersize ctx (q ++ arrivals) buflen
          = some (.returned n data, c1, q1) := h
      exact (reader_start_inv fuel ctx.domainbuffersize ctx (q ++ arrivals) buflen n data c1 q1
        hinv h1).1
    · cases hr : domain_reader fuel ctx (q ++ arrivals) buflen with
      | none => rw [hr] at hx1; simp at hx1
      | some res =>
        obtain ⟨out, c1, q1⟩ := res
        rw [hr] at hx1
        cases out with
        | returned n data =>
          have h1 : domain_reader_start fuel ctx.domainbuffersize ctx (q ++ arrivals) buflen
              = some (.returned n data, c1, q1) := hr
          exact ih c1 q1 (reader_start_inv fuel ctx.domainbuffersize ctx (q ++ arrivals) buflen
            n data c1 q1 hinv h1) x hx1
        | blocked => simp at hx1
        | assert_failed data => simp at hx1

/-- CLAIM C15 (as stated, refuted).  From the state of `_assuan_domain_init`, a read of
16 bytes with a datagram of 3 bytes of the peer in the queue returns them and
leaves offset 3 and size 0: the offset is not at most the size. -/
theorem buffer_inv_counterexample :
    domain_reader 2 (_assuan_domain_init "/tmp/peer".toList)
        [⟨"/tmp/peer".toList, [78, 79, 80]⟩] 16
      = some (.returned 3 [78, 79, 80],
          { serveraddr := "/tmp/peer".toList, domainbuffer := [78, 79, 80],
            domainbufferoffset := 3, domainbuffersize := 0, domainbufferallocated := 4096 },
          []) ∧
    ¬ claimed_buffer_inv
        { serveraddr := "/tmp/peer".toList, domainbuffer := [78, 79, 80],
          domainbufferoffset := 3, domainbuffersize := 0, domainbufferallocated := 4096 } := by
  refine ⟨by decide, ?_⟩
  intro h
  have := h.2.1
  simp at this

/-- CLAIM C15 (amended).  Datagram buffer invariant: in the state set by
`_assuan_domain_init`, and after every call of `domain_reader` that returns,
for every sequence of incoming datagrams (of any sender) and read sizes,
`0 <= domainbufferoffset`, `0 <= domainbuffersize` and
`domainbufferoffset + domainbuffersize <= domainbufferallocated`. -/
theorem buffer_inv_kept (fuel : Nat) (peer : List Char) (calls : List (List Datagram × Nat)) :
    buffer_inv (_assuan_domain_init peer) ∧
    ∀ x ∈ read_calls fuel (_assuan_domain_init peer) [] calls, buffer_inv x.1 ∧
      ∀ n data c1 q1, x.2.2 = some (.returned n data, c1, q1) → buffer_inv c1 := by
  have h0 : buffer_inv (_assuan_domain_init peer) ∧
      (_assuan_domain_init peer).domainbufferallocated < 2 ^ 31 := by
    refine ⟨⟨le_refl _, le_refl _, le_refl _⟩, ?_⟩
    show (0 : Int) < 2 ^ 31
    norm_num
  exact ⟨h0.1, read_calls_inv fuel calls _ [] h0⟩

/-- Witness for `buffer_inv_kept`: the state after a datagram of 3 bytes of the
peer has been read whole (offset 3, size 0, allocated 4096). -/
theorem buffer_inv_kept_witness :
    buffer_inv
      { serveraddr := "/tmp/peer".toList, domainbuffer := [78, 79, 80],
        domainbufferoffset := 3, domainbuffersize := 0, domainbufferallocated := 4096 } :=
  ((buffer_inv_kept 2 "/tmp/peer".toList [([⟨"/tmp/peer".toList, [78, 79, 80]⟩], 16)]).2
    (_assuan_domain_init "/tmp/peer".toList, 16,
      some (.returned 3 [78, 79, 80],
        { serveraddr := "/tmp/peer".toList, domainbuffer := [78, 79, 80],
          domainbufferoffset := 3, domainbuffersize := 0, domainbufferallocated := 4096 }, []))
    (by decide)).2 3 [78, 79, 80] _ [] rfl

/-- Among the entries of rows with pairwise different ids, at most one has a
given id. -/
theorem count_rows_le_one (cmd_id : Int) (l : List StdCmd)
    (hd : l.Pairwise (fun a b => a.cmd_id ≠ b.cmd_id)) :
    (l.map StdCmd.cell).countP (Cell.has_id cmd_id) ≤ 1 := by
  induction l with
  | nil => simp
  | cons x xs ih =>
    rw [List.pairwise_cons] at hd
    rw [List.map_cons, List.countP_cons]
    by_cases hx : x.cmd_id = cmd_id
    · have hzero : (xs.map StdCmd.cell).countP (Cell.has_id cmd_id) = 0 := by
        rw [List.countP_eq_zero]
        intro c hc
        obtain ⟨y, hy, rfl⟩ := List.mem_map.mp hc
        have := hd.1 y hy
        simp only [StdCmd.cell, Cell.has_id, decide_eq_true_eq]
        intro h
        exact this (hx.trans h.symm)
      rw [hzero]
      simp [StdCmd.cell, Cell.has_id, hx]
    · have := ih hd.2
      simp only [StdCmd.cell, Cell.has_id, hx, decide_False, Bool.false_eq_true, if_false]
      simpa [StdCmd.cell] using this

/-- CLAIM C16 (as stated, refuted).  On the standard context the id of `INPUT`, below
`ASSUAN_CMD_USER`, is registered twice; both calls return 0 and the table
holds two entries with that id.  The same happens with the id of `CANCEL`,
already registered by `_assuan_register_std_commands`. -/
theorem registry_duplicates_counterexample :
    sample_defs.ASSUAN_CMD_INPUT < sample_defs.ASSUAN_CMD_USER ∧
    (∃ c1 c2,
      assuan_register_command sample_defs std_ctx sample_defs.ASSUAN_CMD_INPUT none none true
        = (0, c1) ∧
      assuan_register_command sample_defs c1 sample_defs.ASSUAN_CMD_INPUT none none true
        = (0, c2) ∧
      id_count sample_defs.ASSUAN_CMD_INPUT c2 = 2) ∧
    (∃ c1,
      assuan_register_command sample_defs std_ctx sample_defs.ASSUAN_CMD_CANCEL none none true
        = (0, c1) ∧
      id_count sample_defs.ASSUAN_CMD_CANCEL c1 = 2) :=
  ⟨by decide, ⟨_, _, rfl, rfl, by decide⟩, ⟨_, rfl, by decide⟩⟩

/-- CLAIM C16 (amended).  Registry: `_assuan_register_std_commands` on a context without
a table, when it returns 0, leaves no two entries with the same command id;
and every `assuan_register_command` for the id of a row of `std_cmd_table`,
on a well-formed registry and with its allocation succeeding, returns 0 and
adds one entry with that id, whether or not an entry with the id is present:
the code makes no check for duplicates. -/
theorem registry_duplicates (K : Defs) (ctx0 ctx : Ctx) (allocs : List Bool) (e : StdCmd)
    (h : Option Handler) (cmd_id : Int)
    (hK : std_ids_ok K = true) (hooc : K.ASSUAN_Out_Of_Core ≠ 0)
    (hfresh : ctx0.cmdtbl = none)
    (hstd : (_assuan_register_std_commands K ctx0 allocs).1 = 0)
    (he : e ∈ std_cmd_table K) (hok : registry_ok ctx = true) :
    id_count cmd_id (_assuan_register_std_commands K ctx0 allocs).2 ≤ 1 ∧
    (assuan_register_command K ctx e.cmd_id none h true).1 = 0 ∧
    id_count e.cmd_id (assuan_register_command K ctx e.cmd_id none h true).2
      = id_count e.cmd_id ctx + 1 := by
  have hK2 := hK
  simp only [std_ids_ok, Bool.and_eq_true, decide_eq_true_eq] at hK2
  have hok0 : registry_ok ctx0 = true := by simp [registry_ok, hfresh]
  have he0 : entries ctx0 = [] := by simp [entries, hfresh]
  refine ⟨?_, ?_⟩
  · obtain ⟨h1, _⟩ := register_std_loop_entries K hK hooc (std_cmd_table K) ctx0 allocs
      (fun _ hx => hx) hok0 hstd
    have h2 : entries (_assuan_register_std_commands K ctx0 allocs).2
        = ((std_cmd_table K).filter (fun e => e.always)).map StdCmd.cell := by
      rw [_assuan_register_std_commands, h1, he0, List.nil_append]
    rw [id_count, h2]
    exact count_rows_le_one cmd_id _ (List.Pairwise.filter _ hK2.1)
  · rw [register_std_row K ctx e h true hK he]
    obtain ⟨h1, h2, _⟩ := append_command_entries K ctx ⟨e.name, e.cmd_id, h.getD e.handler⟩ hok
    refine ⟨h1, ?_⟩
    rw [id_count, id_count, h2, List.countP_append]
    simp [Cell.has_id]

/-- Witness for `registry_duplicates`: a fresh context, and the registration
of the id of `CANCEL` on the standard context. -/
theorem registry_duplicates_witness :
    id_count sample_defs.ASSUAN_CMD_BYE (_assuan_register_std_commands sample_defs fresh_ctx []).2
      ≤ 1 ∧
    (assuan_register_command sample_defs std_ctx sample_defs.ASSUAN_CMD_CANCEL none none true).1
      = 0 ∧
    id_count sample_defs.ASSUAN_CMD_CANCEL
        (assuan_register_command sample_defs std_ctx sample_defs.ASSUAN_CMD_CANCEL none none
          true).2
      = id_count sample_defs.ASSUAN_CMD_CANCEL std_ctx + 1 :=
  registry_duplicates sample_defs fresh_ctx std_ctx []
    ⟨"CANCEL".toList, sample_defs.ASSUAN_CMD_CANCEL, .std_handler_cancel, true⟩ none
    sample_defs.ASSUAN_CMD_BYE (by decide) (by decide) rfl (by decide) (by decide) (by decide)

/-- The `%d` conversion of an `int` takes at most 11 characters. -/
theorem fmt_d_length (n : Int) (h0 : -2 ^ 31 ≤ n) (h1 : n < 2 ^ 31) :
    (fmt_d n).length ≤ 11 := by
  have e31 : (2 : Int) ^ 31 = 2147483648 := by norm_num
  rw [e31] at h0 h1
  cases n with
  | ofNat m =>
    have hm : m < 10 ^ 10 := by
      have : (m : Int) < 2147483648 := h1
      norm_num
      omega
    have hl := Nat.repr_length m 10 (by norm_num) hm
    have hs : (fmt_d (Int.ofNat m)).length = (Nat.repr m).length := rfl
    rw [hs]
    omega
  | negSucc m =>
    have hm : m + 1 < 10 ^ 10 := by
      have hn : -2147483648 ≤ -((m : Int) + 1) := by
        rw [← Int.negSucc_eq]
        exact h0
      norm_num
      omega
    have hl := Nat.repr_length (m + 1) 10 (by norm_num) hm
    have hs : fmt_d (Int.negSucc m) = ("-" ++ Nat.repr (m + 1)).toList := rfl
    rw [hs]
    simp only [String.toList, String.data_append, List.length_append]
    have hd : (Nat.repr (m + 1)).data.length = (Nat.repr (m + 1)).length := rfl
    rw [hd]
    have hdash : "-".data.length = 1 := rfl
    rw [hdash]
    omega

/-- CLAIM C18.  For every `int` result code `rc`, every `assuan_strerror` and every
sticky detail, of any length, the line formatted into `errline` has at most
255 characters, so that it fits the 256 bytes of the buffer with its NUL; the
`assuan_strerror` text takes at most 50 of them and the detail at most 100. -/
theorem errline_fits (K : Defs) (se : Int → List Char) (ctx : Ctx) (rc : Int)
    (hrc0 : -2 ^ 31 ≤ rc) (hrc1 : rc < 2 ^ 31)
    (hsf0 : -2 ^ 31 ≤ K.ASSUAN_Server_Fault) (hsf1 : K.ASSUAN_Server_Fault < 2 ^ 31) :
    (format_errline K se ctx rc).length ≤ 255 ∧
    (format_errline K se ctx rc).length + 1 ≤ 256 ∧
    ((se rc).take 50).length ≤ 50 ∧
    (((if ctx.err_no = rc then ctx.err_str else none).getD []).take 100).length ≤ 100 := by
  have h1 := fmt_d_length rc hrc0 hrc1
  have h2 := fmt_d_length K.ASSUAN_Server_Fault hsf0 hsf1
  have h3 : ((se rc).take 50).length ≤ 50 := by
    rw [List.length_take]
    exact Nat.min_le_left _ _
  have h4 : ∀ t : Option (List Char), ((t.getD []).take 100).length ≤ 100 := by
    intro t
    rw [List.length_take]
    exact Nat.min_le_left _ _
  have h5 : ∀ t : Option (List Char), (if t.isSome = true then " - ".toList else []).length ≤ 3 := by
    intro t
    split
    · exact le_refl _
    · exact Nat.zero_le _
  have hlen : (format_errline K se ctx rc).length ≤ 255 := by
    unfold format_errline
    by_cases hlt : rc < 100
    · rw [if_pos hlt]
      simp only [List.length_append]
      have e1 : "ERR ".toList.length = 4 := rfl
      have e2 : " server fault (".toList.length = 15 := rfl
      have e3 : ")".toList.length = 1 := rfl
      omega
    · rw [if_neg hlt]
      simp only [List.length_append]
      have e1 : "ERR ".toList.length = 4 := rfl
      have e2 : " ".toList.length = 1 := rfl
      have := h4 (if ctx.err_no = rc then ctx.err_str else none)
      have := h5 (if ctx.err_no = rc then ctx.err_str else none)
      omega
  exact ⟨hlen, by omega, h3, h4 _⟩

/-- Witness for `errline_fits`: the code 200 with an `assuan_strerror` text of
60 characters and a detail of 120 characters. -/
theorem errline_fits_witness :
    (format_errline sample_defs (fun _ => List.replicate 60 'x')
        { fresh_ctx with err_no := 200, err_str := some (List.replicate 120 'y') } 200).length
      ≤ 255 ∧
    (format_errline sample_defs (fun _ => List.replicate 60 'x')
        { fresh_ctx with err_no := 200, err_str := some (List.replicate 120 'y') } 200).length
      + 1 ≤ 256 ∧
    ((List.replicate 60 'x').take 50).length ≤ 50 ∧
    (((if (200 : Int) = 200 then some (List.replicate 120 'y') else none).getD []).take
      100).length ≤ 100 :=
  errline_fits sample_defs (fun _ => List.replicate 60 'x')
    { fresh_ctx with err_no := 200, err_str := some (List.replicate 120 'y') } 200
    (by norm_num) (by norm_num) (by decide) (by decide)

end Assuan
